import Mathlib

/-!
Verification of the `props` property codec of the flatgeobuf-convert
repository (file `props/props.go`, with the schema support of
`props/schema.go`).

The Go code is embedded shallowly:

* Machine integers are modelled as `Nat` bit patterns (an `int32` value is
  represented by its unsigned two's-complement pattern `< 2^32`); floats
  are modelled by their IEEE-754 bit patterns, since the codec only moves
  their bytes.  All multi-byte values are little-endian, as in the source.
* The byte buffer `Props.data` (a `bytes.Buffer`) is a `List Nat` of byte
  values.  Buffers live in a heap (`List (List Nat)`) and a property set
  holds a reference (index) into the heap, so that buffer sharing between
  two property sets built over the same caller-supplied slice, and the
  copy-on-write duplication performed by `mutate`, are observable.
* Fallible operations return `Except Err`; a Go runtime panic (index out
  of range, nil-slice indexing, slice-bounds violation) is modelled by the
  distinguished error `Err.crash`, which propagates like the panic does.
  A partial element-wise write that a panic interrupts is modelled as no
  write at all; no theorem below observes the difference.
* Go strings passed to or returned from the codec are modelled by their
  byte lists (`List Nat`), matching the `string into []byte` conversions the
  source performs.  `time.Time` values cross the codec boundary only as
  their RFC 3339 text (`value.Format(time.RFC3339)` on write; `time.Parse`
  on read), so date-time values are modelled by that text; `GetValue`
  returns the raw date-time bytes tagged as `Value.dateTime` because both
  of its read branches are functions of those bytes, the parse itself being
  the external `time` library's.
-/

namespace FGBProps

/-- Column types of the FlatGeobuf schema (`flat.ColumnType`).  The wire
tags are bytes; `byte` is the numeric zero value (tag 0), which is what the
schema accessors return for an out-of-range column.  Every tag outside the
closed enumeration behaves uniformly in the source (`default:` switch
arms), so a single `unknown` constructor models all of them. -/
inductive ColumnType where
  | byte | ubyte | bool | short | ushort | int | uint | long | ulong
  | float | double | string | json | dateTime | binary | unknown
  deriving DecidableEq, Repr

/-- `flat.ColumnType` zero value: tag 0 is `ColumnTypeByte`. -/
def zeroColumnType : ColumnType := .byte

/-- Errors surfaced by the codec (`props/errors.go`), plus `crash`, which
models a Go runtime panic unwinding out of the codec. -/
inductive Err where
  | noColumn
  | noValue
  | typeMismatch
  | stringSizeOverflowsInt
  | stringSizeCorrupt
  | unknownColumnType
  | unmappableValue
  | invalidColumnType
  | crash
  deriving DecidableEq, Repr

/-- Go `math.MaxInt` on a 64-bit platform. -/
def maxInt : Nat := 2 ^ 63 - 1

/-- Little-endian decoding of `w` bytes starting at `pos`.
Positions are assumed in range by callers (reads that Go would panic on are
guarded at the call sites). -/
def leNat (data : List Nat) (pos w : Nat) : Nat :=
  match w with
  | 0 => 0
  | v + 1 => data.getD pos 0 % 256 + 256 * leNat data (pos + 1) v

/-- Little-endian encoding of value `v` (a bit pattern) into `w` bytes. -/
def leBytes (w v : Nat) : List Nat :=
  match w with
  | 0 => []
  | u + 1 => v % 256 :: leBytes u (v / 256)

/-- Overwrite `data` starting at `pos` with the bytes `src`
(`copy(data[pos:], src)` when the write is fully in bounds). -/
def listOverwrite (data : List Nat) (pos : Nat) (src : List Nat) : List Nat :=
  data.take pos ++ src ++ data.drop (pos + src.length)

/-- A property set (`Props` struct) minus its byte buffer: the buffer is
held in the heap and referred to by `ref`.  `lookup = none` models the nil
lookup slice. -/
structure Props where
  schema : List ColumnType
  ref : Nat
  lookup : Option (List Nat)
  mutableFlag : Bool
  deriving DecidableEq, Repr

/-- Whole-program state: the heap of byte buffers plus the property set
under scrutiny. -/
structure St where
  heap : List (List Nat)
  props : Props
  deriving DecidableEq, Repr

/-- The bytes of the property set's own buffer (`p.data.Bytes()`). -/
def bytesOf (st : St) : List Nat := st.heap.getD st.props.ref []

/-- Replace the property set's own buffer contents in the heap. -/
def setOwnBytes (st : St) (d : List Nat) : St :=
  { st with heap := st.heap.set st.props.ref d }

/-- `Props.columnType`: the schema's type for `col`, with the
`flat.ColumnType` zero value for an out-of-range column. -/
def columnTypeOf (schema : List ColumnType) (col : Nat) : ColumnType :=
  schema.getD col zeroColumnType

/-- `Props.sizeOfValue`: byte size of the value of column `col` whose value
would start at `pos`.  For variable-length types the source computes
`rem := uint64(p.data.Len() - pos)` with wrapping int-to-uint64 conversion,
requires `rem > 4` (strictly), reads the u32 length prefix `n` and requires
`n ≤ math.MaxInt - 4`. -/
def sizeOfValue (schema : List ColumnType) (data : List Nat) (col pos : Nat) :
    Except Err Nat :=
  match columnTypeOf schema col with
  | .bool => .ok 1
  | .byte => .ok 1
  | .ubyte => .ok 1
  | .short => .ok 2
  | .ushort => .ok 2
  | .int => .ok 4
  | .uint => .ok 4
  | .long => .ok 8
  | .ulong => .ok 8
  | .float => .ok 4
  | .double => .ok 8
  | .string | .json | .binary | .dateTime =>
    let rem : Nat := (((data.length : Int) - (pos : Int)) % (2 ^ 64 : Int)).toNat
    if rem > 4 then
      -- flatbuffers.GetUint32(p.data.Bytes()[pos:]): Go panics when the
      -- slice or the 4-byte read is out of bounds.
      if pos + 4 ≤ data.length then
        let n := leNat data pos 4
        if n ≤ maxInt - 4 then .ok (n + 4) else .error .stringSizeOverflowsInt
      else .error .crash
    else .error .stringSizeCorrupt
  | .unknown => .error .unknownColumnType

/-- Loop body of `Props.index2Index`'s lazy lookup construction, with a
fuel argument making the recursion structural.  The loop advances `i` by at
least 2 every iteration, so `fuel = data.length` never runs out before the
loop guard `i < data.length - 2` (Go int arithmetic; equivalently
`i + 2 < data.length`) fails; `parseLoop_fuel` below proves the fuel is
irrelevant in that regime. -/
def parseLoop (schema : List ColumnType) (data : List Nat) :
    Nat → Nat → List Nat → List Nat
  | 0, _, acc => acc
  | fuel + 1, i, acc =>
    if i + 2 < data.length then
      let j := leNat data i 2
      if j ≥ schema.length then
        parseLoop schema data fuel (i + 2) acc
      else
        match sizeOfValue schema data j (i + 2) with
        | .error _ => acc
        | .ok sz =>
          if i + 2 + sz > data.length then acc
          else parseLoop schema data fuel (i + 2 + sz) (acc.set j (i + 2))
    else acc

/-- The lookup table `index2Index` materializes for an immutable set:
`lookup[*] ← 0`, then the parse loop over the payload. -/
def buildLookup (schema : List ColumnType) (data : List Nat) : List Nat :=
  parseLoop schema data data.length 0 (List.replicate schema.length 0)

/-- `Props.index2Index`: resolve a column index to the byte index of its
stored value (0 = no value), materializing the lookup table on first use
for an immutable set. -/
def index2Index (st : St) (col : Nat) : St × Except Err Nat :=
  if col ≥ st.props.schema.length then (st, .error .noColumn)
  else
    match st.props.lookup with
    | some l => (st, .ok (l.getD col 0))
    | none =>
      if st.props.mutableFlag then (st, .ok 0)
      else
        let l := buildLookup st.props.schema (bytesOf st)
        ({ st with props := { st.props with lookup := some l } },
         .ok (l.getD col 0))

/-- `Props.mutate`: copy-on-write promotion.  An immutable set duplicates
its buffer into a fresh heap cell and points at the copy. -/
def mutate (st : St) : St :=
  if st.props.mutableFlag then st
  else
    { heap := st.heap ++ [bytesOf st],
      props := { st.props with ref := st.heap.length, mutableFlag := true } }

/-- `Props.check`: type policing shared by every typed accessor. -/
def check (st : St) (col : Nat) (expected : ColumnType) : Except Err Unit :=
  if columnTypeOf st.props.schema col = expected then .ok () else .error .typeMismatch

/-- `Props.extend`: the append path of the setters, as written.  The source
(a) indexes `p.lookup[col]` (nil-slice panic when the lookup table was never
materialized), (b) calls `p.data.Grow` (capacity only: `Len` unchanged),
(c) writes `uint16(n)` — the size, at offset 0 of the existing buffer
(panicking when fewer than 2 bytes are present), (d) records
`lookup[col] = Len + 2`, and (e) panics evaluating `b[i:]` with
`i = len(b) + 2 > len(b)`.  It therefore never returns normally. -/
def extend (st : St) (col n : Nat) : St × Except Err Unit :=
  match st.props.lookup with
  | none => (st, .error .crash)
  | some l =>
    let data := bytesOf st
    if data.length < 2 then (st, .error .crash)
    else
      let st := setOwnBytes st (listOverwrite data 0 [n % 256, n / 256 % 256])
      let st := { st with props := { st.props with lookup := some (l.set col (data.length + 2)) } }
      (st, .error .crash)

/-- `Props.delete` (the lower-case helper): remove the record of `col`
whose value starts at `pos`.  After the tail copy, the source truncates the
buffer to `pos - 2`, so the net buffer effect is `data.take (pos - 2)` (the
copied tail is discarded by the truncation); `bytes.Buffer.Truncate` panics
when `pos - 2` is negative or exceeds the length. -/
def deleteLow (st : St) (col pos : Nat) : St × Except Err Unit :=
  let st := mutate st
  match sizeOfValue st.props.schema (bytesOf st) col pos with
  | .error _ => (st, .ok ())
  | .ok _ =>
    let data := bytesOf st
    if pos < 2 ∨ pos - 2 > data.length then (st, .error .crash)
    else
      match st.props.lookup with
      | none => (st, .error .crash)
      | some l =>
        let st := setOwnBytes st (data.take (pos - 2))
        ({ st with props := { st.props with lookup := some (l.set col 0) } }, .ok ())

/-- `flatbuffers.Write*` into `p.data.Bytes()[pos:]`: panics (slice bounds
or index out of range) unless the whole `enc.length`-byte write fits. -/
def writeLE (st : St) (pos : Nat) (enc : List Nat) : St × Except Err Unit :=
  let data := bytesOf st
  if pos + enc.length ≤ data.length then
    (setOwnBytes st (listOverwrite data pos enc), .ok ())
  else (st, .error .crash)

/-- Go `copy(data[pos:], src)`: copies `min` of the two lengths, never
panics, never extends the destination. -/
def copyInto (data : List Nat) (pos : Nat) (src : List Nat) : List Nat :=
  listOverwrite data pos (src.take (data.length - pos))

/-- Go's ubiquitous `v, err := f(...); if err != nil { return err }`
pattern: propagate the state and the error, or transform the value. -/
def mapOk {α β : Type} (r : St × Except Err α) (g : α → β) : St × Except Err β :=
  match r with
  | (st, .ok v) => (st, .ok (g v))
  | (st, .error e) => (st, .error e)

/-- `Props.Has`, as written: `i, err := p.index2Index(index); return
err != nil && i > 0`.  Every error return of `index2Index` carries `i = 0`,
so both arms yield `false`. -/
def Has (st : St) (col : Nat) : St × Bool :=
  match index2Index st col with
  | (st', .ok _) => (st', false)      -- err == nil: the conjunct `err != nil` fails
  | (st', .error _) => (st', false)   -- err != nil forces i = 0: `i > 0` fails

/-- `Props.Delete`, as written: `if err == nil || i == 0 { return false }`,
then `p.delete(index, i); return true`.  When `err == nil` it returns
early; when `err != nil` then `i = 0` and it also returns early, so the
lower-case `delete` is unreachable from here. -/
def Delete (st : St) (col : Nat) : St × Bool :=
  match index2Index st col with
  | (st', .ok _) => (st', false)      -- err == nil: early return false
  | (st', .error _) => (st', false)   -- i = 0: early return false

/-- Common body of the fixed-width getters (`GetBool` … `GetDouble`):
resolve, type-check, require a stored value, read `w` bytes at the stored
position (Go panics when the slice or the read is out of bounds). -/
def getFixed (st : St) (col : Nat) (expected : ColumnType) (w : Nat) :
    St × Except Err Nat :=
  match index2Index st col with
  | (st, .error e) => (st, .error e)
  | (st, .ok pos) =>
    match check st col expected with
    | .error e => (st, .error e)
    | .ok _ =>
      if pos = 0 then (st, .error .noValue)
      else
        let data := bytesOf st
        if pos + w ≤ data.length then (st, .ok (leNat data pos w))
        else (st, .error .crash)

/-- Common body of the fixed-width setters (`SetBool` … `SetDouble`):
resolve, type-check, promote to mutable, then overwrite in place when a
value is stored or take the append path (`extend`) otherwise. -/
def setFixed (st : St) (col : Nat) (expected : ColumnType) (enc : List Nat) :
    St × Except Err Unit :=
  match index2Index st col with
  | (st, .error e) => (st, .error e)
  | (st, .ok pos) =>
    match check st col expected with
    | .error e => (st, .error e)
    | .ok _ =>
      let st := mutate st
      if pos > 0 then writeLE st pos enc
      else
        match extend st col enc.length with
        | (st, .error e) => (st, .error e)
        | (st, .ok _) => writeLE st 0 enc  -- unreachable: extend never returns normally

/-- `Props.getBinary`: shared body of the variable-length getters.  Reads
the u32 length prefix at the stored position and returns the value bytes
`b[4 : 4+n]` (Go panics when that slice leaves the buffer). -/
def getBinary (st : St) (col : Nat) (expected : ColumnType) :
    St × Except Err (List Nat) :=
  match index2Index st col with
  | (st, .error e) => (st, .error e)
  | (st, .ok pos) =>
    match check st col expected with
    | .error e => (st, .error e)
    | .ok _ =>
      if pos = 0 then (st, .error .noValue)
      else
        let data := bytesOf st
        if pos + 4 ≤ data.length then
          let n := leNat data pos 4
          if n ≤ maxInt - 4 then
            if pos + 4 + n ≤ data.length then
              (st, .ok ((data.drop (pos + 4)).take n))
            else (st, .error .crash)
          else (st, .error .stringSizeOverflowsInt)
        else (st, .error .crash)

/-- `Props.setBinary`: shared body of the variable-length setters.  In
place when the stored length equals the new length; otherwise the stored
record is deleted (`deleteLow`) and the append path (`extend`) is taken. -/
def setBinary (st : St) (col : Nat) (expected : ColumnType) (value : List Nat) :
    St × Except Err Unit :=
  match index2Index st col with
  | (st, .error e) => (st, .error e)
  | (st, .ok pos) =>
    match check st col expected with
    | .error e => (st, .error e)
    | .ok _ =>
      let st := mutate st
      if pos > 0 then
        let data := bytesOf st
        if pos + 4 ≤ data.length then
          let n := leNat data pos 4
          if n = value.length % 2 ^ 32 then
            -- WriteUint32 then copy(b[4:], value): the copy clamps.
            match writeLE st pos (leBytes 4 (value.length % 2 ^ 32)) with
            | (st, .error e) => (st, .error e)
            | (st, .ok _) =>
              (setOwnBytes st (copyInto (bytesOf st) (pos + 4) value), .ok ())
          else
            match deleteLow st col pos with
            | (st, .error e) => (st, .error e)
            | (st, .ok _) =>
              match extend st col value.length with
              | (st, .error e) => (st, .error e)
              | (st, .ok _) => (st, .ok ())
        else (st, .error .crash)
      else
        match extend st col value.length with
        | (st, .error e) => (st, .error e)
        | (st, .ok _) => (st, .ok ())

/-- `Props.GetBool`: the stored byte, non-zero meaning `true`. -/
def GetBool (st : St) (col : Nat) : St × Except Err Bool :=
  mapOk (getFixed st col .bool 1) (fun b => b != 0)

/-- `Props.GetByte` (value as its unsigned bit pattern). -/
def GetByte (st : St) (col : Nat) : St × Except Err Nat := getFixed st col .byte 1

/-- `Props.GetUByte`. -/
def GetUByte (st : St) (col : Nat) : St × Except Err Nat := getFixed st col .ubyte 1

/-- `Props.GetShort` (value as its unsigned bit pattern, little-endian). -/
def GetShort (st : St) (col : Nat) : St × Except Err Nat := getFixed st col .short 2

/-- `Props.GetUShort`. -/
def GetUShort (st : St) (col : Nat) : St × Except Err Nat := getFixed st col .ushort 2

/-- `Props.GetInt` (value as its unsigned bit pattern, little-endian). -/
def GetInt (st : St) (col : Nat) : St × Except Err Nat := getFixed st col .int 4

/-- `Props.GetUInt`. -/
def GetUInt (st : St) (col : Nat) : St × Except Err Nat := getFixed st col .uint 4

/-- `Props.GetLong` (value as its unsigned bit pattern, little-endian). -/
def GetLong (st : St) (col : Nat) : St × Except Err Nat := getFixed st col .long 8

/-- `Props.GetULong`. -/
def GetULong (st : St) (col : Nat) : St × Except Err Nat := getFixed st col .ulong 8

/-- `Props.GetFloat` (value as its IEEE-754 bit pattern). -/
def GetFloat (st : St) (col : Nat) : St × Except Err Nat := getFixed st col .float 4

/-- `Props.GetDouble` (value as its IEEE-754 bit pattern). -/
def GetDouble (st : St) (col : Nat) : St × Except Err Nat := getFixed st col .double 8

/-- `Props.SetBool`. -/
def SetBool (st : St) (col : Nat) (v : Bool) : St × Except Err Unit :=
  setFixed st col .bool [if v then 1 else 0]

/-- `Props.SetByte` (value as its unsigned bit pattern). -/
def SetByte (st : St) (col : Nat) (v : Nat) : St × Except Err Unit :=
  setFixed st col .byte (leBytes 1 v)

/-- `Props.SetUByte`. -/
def SetUByte (st : St) (col : Nat) (v : Nat) : St × Except Err Unit :=
  setFixed st col .ubyte (leBytes 1 v)

/-- `Props.SetShort`. -/
def SetShort (st : St) (col : Nat) (v : Nat) : St × Except Err Unit :=
  setFixed st col .short (leBytes 2 v)

/-- `Props.SetUShort`. -/
def SetUShort (st : St) (col : Nat) (v : Nat) : St × Except Err Unit :=
  setFixed st col .ushort (leBytes 2 v)

/-- `Props.SetInt`. -/
def SetInt (st : St) (col : Nat) (v : Nat) : St × Except Err Unit :=
  setFixed st col .int (leBytes 4 v)

/-- `Props.SetUInt`. -/
def SetUInt (st : St) (col : Nat) (v : Nat) : St × Except Err Unit :=
  setFixed st col .uint (leBytes 4 v)

/-- `Props.SetLong`. -/
def SetLong (st : St) (col : Nat) (v : Nat) : St × Except Err Unit :=
  setFixed st col .long (leBytes 8 v)

/-- `Props.SetULong`. -/
def SetULong (st : St) (col : Nat) (v : Nat) : St × Except Err Unit :=
  setFixed st col .ulong (leBytes 8 v)

/-- `Props.SetFloat` (value as its IEEE-754 bit pattern). -/
def SetFloat (st : St) (col : Nat) (v : Nat) : St × Except Err Unit :=
  setFixed st col .float (leBytes 4 v)

/-- `Props.SetDouble` (value as its IEEE-754 bit pattern). -/
def SetDouble (st : St) (col : Nat) (v : Nat) : St × Except Err Unit :=
  setFixed st col .double (leBytes 8 v)

/-- `Props.GetString` (the returned Go string as its byte list). -/
def GetString (st : St) (col : Nat) : St × Except Err (List Nat) :=
  getBinary st col .string

/-- `Props.GetJSON`. -/
def GetJSON (st : St) (col : Nat) : St × Except Err (List Nat) :=
  getBinary st col .json

/-- `Props.GetBinary` (the source copies the bytes out; the copy is
value-equal to the stored bytes). -/
def GetBinary (st : St) (col : Nat) : St × Except Err (List Nat) :=
  getBinary st col .binary

/-- `Props.GetDateTimeString`. -/
def GetDateTimeString (st : St) (col : Nat) : St × Except Err (List Nat) :=
  getBinary st col .dateTime

/-- `Props.GetDateTime`: reads the raw bytes, then builds an unsafe string
from `&b[0]` (Go panics on an empty value) and parses it with the external
`time` library; the parse result is a pure function of the raw text, which
the model returns instead. -/
def GetDateTime (st : St) (col : Nat) : St × Except Err (List Nat) :=
  match getBinary st col .dateTime with
  | (st, .ok bs) => if bs.isEmpty then (st, .error .crash) else (st, .ok bs)
  | (st, .error e) => (st, .error e)

/-- `Props.SetString`. -/
def SetString (st : St) (col : Nat) (s : List Nat) : St × Except Err Unit :=
  setBinary st col .string s

/-- `Props.SetJSON`. -/
def SetJSON (st : St) (col : Nat) (s : List Nat) : St × Except Err Unit :=
  setBinary st col .json s

/-- `Props.SetBinary`. -/
def SetBinary (st : St) (col : Nat) (s : List Nat) : St × Except Err Unit :=
  setBinary st col .binary s

/-- `Props.SetDateTime` (the `time.Time` argument crosses the boundary as
its RFC 3339 text, here the byte list `s`). -/
def SetDateTime (st : St) (col : Nat) (s : List Nat) : St × Except Err Unit :=
  setBinary st col .dateTime s

/-- `Props.SetDateTimeString`. -/
def SetDateTimeString (st : St) (col : Nat) (s : List Nat) : St × Except Err Unit :=
  setBinary st col .dateTime s

/-- Results of the dynamic getter `Props.GetValue` (Go `any`). -/
inductive Value where
  | b (v : Bool)
  | n (v : Nat)
  | s (bs : List Nat)
  | bin (bs : List Nat)
  | dt (bs : List Nat)
  deriving DecidableEq, Repr

/-- The `GetValue` date-time arm: a success is tagged, while any failure
panics inside `errors.As` (see `GetValue`), modelled as `crash`. -/
def mapOkOrCrash {α : Type} (r : St × Except Err α) (g : α → Value) : St × Except Err Value :=
  match r with
  | (st, .ok v) => (st, .ok (g v))
  | (st, .error _) => (st, .error .crash)

/-- `Props.GetValue`: dispatch on the schema's column type (with the
`flat.ColumnType` zero value for out-of-range indices, as in the source).
For `DateTime`, the source calls `errors.As(err, &time.ParseError\x7b\x7d)`
whose target type does not implement `error` (pointer receiver), so any
non-nil error from `GetDateTime` panics inside `errors.As`; the success
value is a pure function of the raw bytes, returned tagged.  The `default:`
arm calls `errInvalidColumnType`, an identifier the package never defines;
its intended error is modelled as `Err.invalidColumnType`. -/
def GetValue (st : St) (col : Nat) : St × Except Err Value :=
  match columnTypeOf st.props.schema col with
  | .bool => mapOk (GetBool st col) Value.b
  | .byte => mapOk (GetByte st col) Value.n
  | .ubyte => mapOk (GetUByte st col) Value.n
  | .short => mapOk (GetShort st col) Value.n
  | .ushort => mapOk (GetUShort st col) Value.n
  | .int => mapOk (GetInt st col) Value.n
  | .uint => mapOk (GetUInt st col) Value.n
  | .long => mapOk (GetLong st col) Value.n
  | .ulong => mapOk (GetULong st col) Value.n
  | .float => mapOk (GetFloat st col) Value.n
  | .double => mapOk (GetDouble st col) Value.n
  | .string => mapOk (GetString st col) Value.s
  | .json => mapOk (GetJSON st col) Value.s
  | .binary => mapOk (GetBinary st col) Value.bin
  | .dateTime => mapOkOrCrash (GetDateTime st col) Value.dt
  | .unknown => (st, .error .invalidColumnType)

/-- Runtime values accepted by the dynamic setter `Props.SetValue`.
`time` carries the RFC 3339 text the source derives from a `time.Time`;
`other` stands for every Go runtime value whose type has no `case` arm. -/
inductive AnyValue where
  | vBool (v : Bool)
  | vByte (v : Nat)
  | vUByte (v : Nat)
  | vShort (v : Nat)
  | vUShort (v : Nat)
  | vInt (v : Nat)
  | vUInt (v : Nat)
  | vLong (v : Nat)
  | vULong (v : Nat)
  | vFloat (v : Nat)
  | vDouble (v : Nat)
  | vString (s : List Nat)
  | vBinary (s : List Nat)
  | vTime (s : List Nat)
  | other
  deriving DecidableEq, Repr

/-- The column type a runtime value's type maps to in `SetValue`'s type
switch (`none` for the `default:` arm). -/
def anyValueType : AnyValue → Option ColumnType
  | .vBool _ => some .bool
  | .vByte _ => some .byte
  | .vUByte _ => some .ubyte
  | .vShort _ => some .short
  | .vUShort _ => some .ushort
  | .vInt _ => some .int
  | .vUInt _ => some .uint
  | .vLong _ => some .long
  | .vULong _ => some .ulong
  | .vFloat _ => some .float
  | .vDouble _ => some .double
  | .vString _ => some .string
  | .vBinary _ => some .binary
  | .vTime _ => some .dateTime
  | .other => none

/-- `Props.SetValue`: dispatch on the runtime type of the supplied value;
the `default:` arm returns the `fmtErr` "does not map to a FlatGeobuf
column type" error, modelled as `Err.unmappableValue`. -/
def SetValue (st : St) (col : Nat) (v : AnyValue) : St × Except Err Unit :=
  match v with
  | .vBool v => SetBool st col v
  | .vByte v => SetByte st col v
  | .vUByte v => SetUByte st col v
  | .vShort v => SetShort st col v
  | .vUShort v => SetUShort st col v
  | .vInt v => SetInt st col v
  | .vUInt v => SetUInt st col v
  | .vLong v => SetLong st col v
  | .vULong v => SetULong st col v
  | .vFloat v => SetFloat st col v
  | .vDouble v => SetDouble st col v
  | .vString s => SetString st col s
  | .vBinary s => SetBinary st col s
  | .vTime s => SetDateTime st col s
  | .other => (st, .error .unmappableValue)

/-- `PropsFromFlat`: an immutable property set over a caller-supplied
buffer (here: over the heap cell `ref`). -/
def propsFromFlat (schema : List ColumnType) (ref : Nat) : Props :=
  { schema := schema, ref := ref, lookup := none, mutableFlag := false }

/-- `NewProps`: a fresh mutable property set with an empty buffer (the
zero `bytes.Buffer`), whose buffer lives in the fresh heap cell `ref`. -/
def newProps (schema : List ColumnType) (ref : Nat) : Props :=
  { schema := schema, ref := ref, lookup := none, mutableFlag := true }

/-- One typed write operation (the value payload is carried in the
constructor); used to quantify over "any typed setter call". -/
inductive SetOp where
  | oBool (v : Bool)
  | oByte (v : Nat)
  | oUByte (v : Nat)
  | oShort (v : Nat)
  | oUShort (v : Nat)
  | oInt (v : Nat)
  | oUInt (v : Nat)
  | oLong (v : Nat)
  | oULong (v : Nat)
  | oFloat (v : Nat)
  | oDouble (v : Nat)
  | oString (s : List Nat)
  | oJSON (s : List Nat)
  | oBinary (s : List Nat)
  | oDateTime (s : List Nat)
  | oDateTimeString (s : List Nat)
  deriving DecidableEq, Repr

/-- The schema column type a typed setter checks against. -/
def setOpType : SetOp → ColumnType
  | .oBool _ => .bool
  | .oByte _ => .byte
  | .oUByte _ => .ubyte
  | .oShort _ => .short
  | .oUShort _ => .ushort
  | .oInt _ => .int
  | .oUInt _ => .uint
  | .oLong _ => .long
  | .oULong _ => .ulong
  | .oFloat _ => .float
  | .oDouble _ => .double
  | .oString _ => .string
  | .oJSON _ => .json
  | .oBinary _ => .binary
  | .oDateTime _ => .dateTime
  | .oDateTimeString _ => .dateTime

/-- Run a typed setter on column `col`. -/
def runSet (o : SetOp) (st : St) (col : Nat) : St × Except Err Unit :=
  match o with
  | .oBool v => SetBool st col v
  | .oByte v => SetByte st col v
  | .oUByte v => SetUByte st col v
  | .oShort v => SetShort st col v
  | .oUShort v => SetUShort st col v
  | .oInt v => SetInt st col v
  | .oUInt v => SetUInt st col v
  | .oLong v => SetLong st col v
  | .oULong v => SetULong st col v
  | .oFloat v => SetFloat st col v
  | .oDouble v => SetDouble st col v
  | .oString s => SetString st col s
  | .oJSON s => SetJSON st col s
  | .oBinary s => SetBinary st col s
  | .oDateTime s => SetDateTime st col s
  | .oDateTimeString s => SetDateTimeString st col s

/-- One mutating operation: a typed setter, the dynamic setter, or a
delete. -/
inductive MutOp where
  | set (o : SetOp)
  | setAny (v : AnyValue)
  | del
  deriving DecidableEq, Repr

/-- Run a mutating operation on column `col` (the Boolean result of
`Delete` is dropped; only the state matters to the frame claims). -/
def runMut (o : MutOp) (st : St) (col : Nat) : St × Except Err Unit :=
  match o with
  | .set o => runSet o st col
  | .setAny v => SetValue st col v
  | .del => ((Delete st col).1, .ok ())

/-- One typed read operation. -/
inductive GetOp where
  | gBool | gByte | gUByte | gShort | gUShort | gInt | gUInt | gLong | gULong
  | gFloat | gDouble | gString | gJSON | gBinary | gDateTime | gDateTimeString
  deriving DecidableEq, Repr

/-- The schema column type a typed getter checks against. -/
def getOpType : GetOp → ColumnType
  | .gBool => .bool
  | .gByte => .byte
  | .gUByte => .ubyte
  | .gShort => .short
  | .gUShort => .ushort
  | .gInt => .int
  | .gUInt => .uint
  | .gLong => .long
  | .gULong => .ulong
  | .gFloat => .float
  | .gDouble => .double
  | .gString => .string
  | .gJSON => .json
  | .gBinary => .binary
  | .gDateTime => .dateTime
  | .gDateTimeString => .dateTime

/-- Run a typed getter on column `col`, its result wrapped in `Value`. -/
def runGet (g : GetOp) (st : St) (col : Nat) : St × Except Err Value :=
  match g with
  | .gBool => mapOk (GetBool st col) Value.b
  | .gByte => mapOk (GetByte st col) Value.n
  | .gUByte => mapOk (GetUByte st col) Value.n
  | .gShort => mapOk (GetShort st col) Value.n
  | .gUShort => mapOk (GetUShort st col) Value.n
  | .gInt => mapOk (GetInt st col) Value.n
  | .gUInt => mapOk (GetUInt st col) Value.n
  | .gLong => mapOk (GetLong st col) Value.n
  | .gULong => mapOk (GetULong st col) Value.n
  | .gFloat => mapOk (GetFloat st col) Value.n
  | .gDouble => mapOk (GetDouble st col) Value.n
  | .gString => mapOk (GetString st col) Value.s
  | .gJSON => mapOk (GetJSON st col) Value.s
  | .gBinary => mapOk (GetBinary st col) Value.bin
  | .gDateTime => mapOk (GetDateTime st col) Value.dt
  | .gDateTimeString => mapOk (GetDateTimeString st col) Value.s

/-- One read-only operation: a typed getter, the dynamic getter, or
`Has` (whose Boolean is wrapped as a `Value.b`). -/
inductive ReadOp where
  | get (g : GetOp)
  | getAny
  | has
  deriving DecidableEq, Repr

/-- Run a read-only operation on column `col`. -/
def runRead (o : ReadOp) (st : St) (col : Nat) : St × Except Err Value :=
  match o with
  | .get g => runGet g st col
  | .getAny => GetValue st col
  | .has =>
    match Has st col with
    | (st, v) => (st, .ok (.b v))

/-- Decidable equality for `Except` results, used to evaluate concrete
runs of the codec. -/
instance {ε α : Type} [DecidableEq ε] [DecidableEq α] : DecidableEq (Except ε α) :=
  fun a b =>
    match a, b with
    | .ok x, .ok y =>
      if h : x = y then .isTrue (by rw [h]) else .isFalse (fun hh => h (by cases hh; rfl))
    | .error x, .error y =>
      if h : x = y then .isTrue (by rw [h]) else .isFalse (fun hh => h (by cases hh; rfl))
    | .ok _, .error _ => .isFalse (fun hh => by cases hh)
    | .error _, .ok _ => .isFalse (fun hh => by cases hh)

/-! ## Helper lemmas -/

/-- `List.getD` at an index below the length of the left part of an
append. -/
theorem getD_append_left {α : Type} {l l' : List α} {i : Nat} (h : i < l.length) (d : α) :
    (l ++ l').getD i d = l.getD i d := by
  simp [List.getD_eq_getElem?_getD, List.getElem?_append_left h]

/-- `List.getD` after `List.set` at the written index. -/
theorem getD_set_self {α : Type} {l : List α} {i : Nat} {v : α} {d : α} (h : i < l.length) :
    (l.set i v).getD i d = v := by
  simp [List.getD_eq_getElem?_getD, List.getElem?_set_self, h]

/-- `List.getD` after `List.set` at a different index. -/
theorem getD_set_ne {α : Type} {l : List α} {i j : Nat} {v : α} {d : α} (h : i ≠ j) :
    (l.set i v).getD j d = l.getD j d := by
  simp [List.getD_eq_getElem?_getD, List.getElem?_set_ne h]

/-- A replicated all-zero lookup table reads 0 everywhere. -/
theorem getD_replicate_zero (n c : Nat) : (List.replicate n (0 : Nat)).getD c 0 = 0 := by
  rcases lt_or_le c n with h | h
  · simp [List.getD_eq_getElem?_getD, List.getElem?_replicate, h]
  · have hn : (List.replicate n (0 : Nat)).length ≤ c := by simpa using h
    simp [List.getD_eq_getElem?_getD, List.getElem?_eq_none hn]

/-- The fuel threaded through `parseLoop` is irrelevant once it covers the
remaining bytes: the loop advances `i` by at least 2 per iteration while
consuming one unit of fuel, so any two sufficient fuels agree.  This is the
sense in which the fuel encoding is faithful to the source's unbounded
`for` loop. -/
theorem parseLoop_fuel (schema : List ColumnType) (data : List Nat) :
    ∀ f1 f2 i acc, data.length ≤ i + f1 → data.length ≤ i + f2 →
      parseLoop schema data f1 i acc = parseLoop schema data f2 i acc := by
  intro f1
  induction f1 with
  | zero =>
    intro f2 i acc h1 _
    cases f2 with
    | zero => rfl
    | succ f2 =>
      have hguard : ¬ i + 2 < data.length := by omega
      simp [parseLoop, hguard]
  | succ f1 ih =>
    intro f2 i acc h1 h2
    cases f2 with
    | zero =>
      have hguard : ¬ i + 2 < data.length := by omega
      simp [parseLoop, hguard]
    | succ f2 =>
      by_cases hguard : i + 2 < data.length
      · simp only [parseLoop, if_pos hguard]
        by_cases hj : leNat data i 2 ≥ schema.length
        · simp only [if_pos hj]
          exact ih f2 (i + 2) acc (by omega) (by omega)
        · simp only [if_neg hj]
          cases sizeOfValue schema data (leNat data i 2) (i + 2) with
          | error e => rfl
          | ok sz =>
            by_cases hsz : i + 2 + sz > data.length
            · simp [hsz]
            · simp only [if_neg hsz]
              exact ih f2 (i + 2 + sz) _ (by omega) (by omega)
      · simp [parseLoop, hguard]

/-! ## Concrete scenario states -/

/-- A one-column `Int` schema over the payload `00 00 07 00 00 00`
(column 0 stores the value 7), shared as heap cell 0. -/
def stInt7 : St := { heap := [[0, 0, 7, 0, 0, 0]], props := propsFromFlat [.int] 0 }

/-- A fresh mutable property set over a one-column `Bool` schema. -/
def stFresh : St := { heap := [[]], props := newProps [.bool] 0 }

/-- Schema `[Int, Bool]` over a payload storing 0x04030201 for column 0
(value at byte 2) and `true` for column 1 (value at byte 8). -/
def stTwo : St := { heap := [[0, 0, 1, 2, 3, 4, 1, 0, 1]], props := propsFromFlat [.int, .bool] 0 }

/-- `stTwo` after its lookup table has been materialized by a read. -/
def stTwoIdx : St := (GetInt stTwo 0).1

/-! ## Claim theorems -/

/-- C1: the claim states that after `set_T(c, v)` the typed getter returns
`v`, and after a further `delete(c)` the getter fails `NoValue`.  On the
code, `Props.Delete`'s guard is inverted (`err == nil || i == 0` returns
early), so `Delete` never removes anything: on a one-column `Int` schema
with a stored value, `SetInt(0, 5)` round-trips, but `Delete(0)` returns
`false` and `GetInt(0)` still returns 5 instead of failing `NoValue`. -/
theorem c1_delete_is_noop :
    (SetInt stInt7 0 5).2 = .ok () ∧
    (GetInt (SetInt stInt7 0 5).1 0).2 = .ok 5 ∧
    (Delete (SetInt stInt7 0 5).1 0).2 = false ∧
    (GetInt (Delete (SetInt stInt7 0 5).1 0).1 0).2 = .ok 5 := by
  decide

/-- C2: the claim states that writing values to a fresh mutable set
produces the concatenation of `⟨col:u16⟩⟨value⟩` records.  On the code, the
append path (`extend`) indexes the never-materialized nil lookup slice of a
fresh mutable set and panics; no record is ever appended: after
`SetBool(0, true)` on a fresh set the payload should be `[0, 0, 1]` but the
call panics and the payload stays empty. -/
theorem c2_extend_never_appends :
    (SetBool stFresh 0 true).2 = .error .crash ∧
    bytesOf (SetBool stFresh 0 true).1 = [] ∧
    bytesOf (SetBool stFresh 0 true).1 ≠ [0, 0, 1] := by
  decide

/-- C3: the claim states that `delete` removes exactly the deleted record's
bytes, decreases the later offset-table entries and leaves other columns
readable.  On the code, `delete` truncates the buffer at `pos - 2` (the
start of the removed record), discarding the whole tail it just shifted,
and never adjusts the other lookup entries: on schema `[Int, Bool]` with
records for both columns, deleting column 0's record (value at byte 2)
leaves an empty payload, keeps column 1's stale lookup entry 8, and a
subsequent `GetBool(1)` panics instead of returning its value. -/
theorem c3_delete_drops_tail :
    (GetBool stTwoIdx 1).2 = .ok true ∧
    (deleteLow stTwoIdx 0 2).2 = .ok () ∧
    bytesOf (deleteLow stTwoIdx 0 2).1 = [] ∧
    (deleteLow stTwoIdx 0 2).1.props.lookup = some [0, 8] ∧
    (GetBool (deleteLow stTwoIdx 0 2).1 1).2 = .error .crash := by
  decide

/-- C4: the claim states `has(c)` is true exactly when resolution succeeds
and a value is stored.  On the code, `Has` returns `err != nil && i > 0`,
and every error return of `index2Index` carries `i = 0`, so `Has` is
constantly `false`: on a one-column `Int` schema whose payload stores 7
(readable via `GetInt`), `Has(0)` still returns `false`. -/
theorem c4_has_inverted :
    ((GetInt stInt7 0).2 = .ok 7 ∧ (Has stInt7 0).2 = false) ∧
    ∀ (st : St) (c : Nat), (Has st c).2 = false := by
  refine ⟨by decide, fun st c => ?_⟩
  unfold Has
  rcases index2Index st c with ⟨st', r⟩
  cases r <;> rfl

/-- C7 counterexample: the claim states that a record with column index
`≥ column_count` stops parsing, so no later bytes contribute offset-table
entries.  On the payload `[5, 0, 0, 0, 1]` under a one-column schema the
first tag is 5 (out of range), yet the parser carries on and indexes the
record that starts two bytes later: `offset[0] = 4 ≠ 0`. -/
theorem c7_continue_counterexample :
    leNat [5, 0, 0, 0, 1] 0 2 = 5 ∧ (5 : Nat) ≥ ([ColumnType.bool] : List ColumnType).length ∧
    (buildLookup [.bool] [5, 0, 0, 0, 1]).getD 0 0 = 4 ∧
    ¬ (buildLookup [.bool] [5, 0, 0, 0, 1]).getD 0 0 = 0 := by
  decide

/-- C9 counterexample: the claim states `size_of_value` succeeds with
`4 + n` whenever at least 4 bytes remain, in particular returning 4 when
exactly 4 bytes remain and the stored length is 0.  On the code the guard
is `rem > 4` (strictly), so with exactly 4 remaining bytes — length prefix
0, no value bytes — it fails `StringSizeCorrupt` instead of returning 4. -/
theorem c9_rem4_counterexample :
    ([0, 0, 0, 0] : List Nat).length - 0 ≥ 4 ∧ leNat [0, 0, 0, 0] 0 4 = 0 ∧
    sizeOfValue [.string] [0, 0, 0, 0] 0 0 = .error .stringSizeCorrupt ∧
    ¬ sizeOfValue [.string] [0, 0, 0, 0] 0 0 = .ok 4 := by
  decide

/-- C7 amended: what the parser actually does at an anomalous record.  An
unknown column index (`≥ column_count`) does **not** stop parsing: the
parser skips the two tag bytes and continues scanning at the next position
(the source `continue`s).  Parsing stops — returning the accumulated table
unchanged, so earlier entries are preserved and no later byte contributes —
only on a size error or a record overrunning the payload. -/
theorem c7_amended_anomaly_behavior (schema : List ColumnType) (data : List Nat)
    (fuel i : Nat) (acc : List Nat) (hguard : i + 2 < data.length) :
    (leNat data i 2 ≥ schema.length →
        parseLoop schema data (fuel + 1) i acc = parseLoop schema data fuel (i + 2) acc) ∧
    (∀ e, leNat data i 2 < schema.length →
        sizeOfValue schema data (leNat data i 2) (i + 2) = .error e →
        parseLoop schema data (fuel + 1) i acc = acc) ∧
    (∀ sz, leNat data i 2 < schema.length →
        sizeOfValue schema data (leNat data i 2) (i + 2) = .ok sz →
        data.length < i + 2 + sz →
        parseLoop schema data (fuel + 1) i acc = acc) := by
  refine ⟨fun hj => ?_, fun e hj he => ?_, fun sz hj hs hsz => ?_⟩
  · simp [parseLoop, hguard, hj]
  · simp [parseLoop, hguard, Nat.not_le.mpr hj, he]
  · simp [parseLoop, hguard, Nat.not_le.mpr hj, hs, hsz]

/-- Witness for `c7_amended_anomaly_behavior` at the counterexample
payload. -/
theorem c7_amended_witness :
    (0 + 2 < ([5, 0, 1] : List Nat).length) ∧
    ((leNat [5, 0, 1] 0 2 ≥ ([ColumnType.bool] : List ColumnType).length →
        parseLoop [.bool] [5, 0, 1] (2 + 1) 0 [0] = parseLoop [.bool] [5, 0, 1] 2 (0 + 2) [0]) ∧
     (∀ e, leNat [5, 0, 1] 0 2 < ([ColumnType.bool] : List ColumnType).length →
        sizeOfValue [.bool] [5, 0, 1] (leNat [5, 0, 1] 0 2) (0 + 2) = .error e →
        parseLoop [.bool] [5, 0, 1] (2 + 1) 0 [0] = [0]) ∧
     (∀ sz, leNat [5, 0, 1] 0 2 < ([ColumnType.bool] : List ColumnType).length →
        sizeOfValue [.bool] [5, 0, 1] (leNat [5, 0, 1] 0 2) (0 + 2) = .ok sz →
        ([5, 0, 1] : List Nat).length < 0 + 2 + sz →
        parseLoop [.bool] [5, 0, 1] (2 + 1) 0 [0] = [0])) :=
  ⟨by decide, c7_amended_anomaly_behavior [.bool] [5, 0, 1] 2 0 [0] (by decide)⟩

/-- C9 amended: `size_of_value` on a variable-length column.  The source
requires `rem > 4` **strictly**, so it succeeds with `4 + n` only when at
least 5 bytes remain (`pos + 4 < len(bytes)`) and `n ≤ MAX_INT − 4`, fails
`StringSizeOverflows` on an oversized `n`, and fails `StringSizeCorrupt`
whenever 4 or fewer bytes remain — including the 4-byte case the claim
says must succeed.  An out-of-enumeration column tag fails
`UnknownColumnType`. -/
theorem c9_amended_size_of_value (schema : List ColumnType) (data : List Nat)
    (col pos : Nat) (hlen : data.length < 2 ^ 64) :
    (columnTypeOf schema col = .unknown →
        sizeOfValue schema data col pos = .error .unknownColumnType) ∧
    ((columnTypeOf schema col = .string ∨ columnTypeOf schema col = .json ∨
      columnTypeOf schema col = .binary ∨ columnTypeOf schema col = .dateTime) →
      (pos + 4 < data.length →
        (leNat data pos 4 ≤ maxInt - 4 →
            sizeOfValue schema data col pos = .ok (leNat data pos 4 + 4)) ∧
        (maxInt - 4 < leNat data pos 4 →
            sizeOfValue schema data col pos = .error .stringSizeOverflowsInt)) ∧
      (pos ≤ data.length → data.length ≤ pos + 4 →
          sizeOfValue schema data col pos = .error .stringSizeCorrupt)) := by
  have hrem : ∀ _ : pos ≤ data.length,
      (((data.length : Int) - (pos : Int)) % (2 ^ 64 : Int)).toNat = data.length - pos := by
    intro hp
    rw [Int.emod_eq_of_lt (by omega) (by push_cast; omega)]
    omega
  constructor
  · intro hty
    simp only [sizeOfValue, hty]
  · intro hty
    have hbody :
        sizeOfValue schema data col pos =
          (if (((data.length : Int) - (pos : Int)) % (2 ^ 64 : Int)).toNat > 4 then
            if pos + 4 ≤ data.length then
              if leNat data pos 4 ≤ maxInt - 4 then .ok (leNat data pos 4 + 4)
              else .error .stringSizeOverflowsInt
            else .error .crash
          else .error .stringSizeCorrupt) := by
      rcases hty with h | h | h | h <;> simp only [sizeOfValue, h]
    constructor
    · intro hp
      have h4 : (((data.length : Int) - (pos : Int)) % (2 ^ 64 : Int)).toNat > 4 := by
        rw [hrem (by omega)]; omega
      constructor
      · intro hn
        rw [hbody, if_pos h4, if_pos (by omega), if_pos hn]
      · intro hn
        rw [hbody, if_pos h4, if_pos (by omega), if_neg (by omega)]
    · intro hp hle
      have h4 : ¬ (((data.length : Int) - (pos : Int)) % (2 ^ 64 : Int)).toNat > 4 := by
        rw [hrem hp]; omega
      rw [hbody, if_neg h4]

/-- Witness for `c9_amended_size_of_value` on a 5-byte buffer holding a
zero-length string record. -/
theorem c9_amended_witness :
    (([0, 0, 0, 0, 9] : List Nat).length < 2 ^ 64) ∧
    ((columnTypeOf [.string] 0 = .unknown →
        sizeOfValue [.string] [0, 0, 0, 0, 9] 0 0 = .error .unknownColumnType) ∧
     ((columnTypeOf [.string] 0 = .string ∨ columnTypeOf [.string] 0 = .json ∨
       columnTypeOf [.string] 0 = .binary ∨ columnTypeOf [.string] 0 = .dateTime) →
       (0 + 4 < ([0, 0, 0, 0, 9] : List Nat).length →
         (leNat [0, 0, 0, 0, 9] 0 4 ≤ maxInt - 4 →
             sizeOfValue [.string] [0, 0, 0, 0, 9] 0 0 = .ok (leNat [0, 0, 0, 0, 9] 0 4 + 4)) ∧
         (maxInt - 4 < leNat [0, 0, 0, 0, 9] 0 4 →
             sizeOfValue [.string] [0, 0, 0, 0, 9] 0 0 = .error .stringSizeOverflowsInt)) ∧
       (0 ≤ ([0, 0, 0, 0, 9] : List Nat).length → ([0, 0, 0, 0, 9] : List Nat).length ≤ 0 + 4 →
           sizeOfValue [.string] [0, 0, 0, 0, 9] 0 0 = .error .stringSizeCorrupt))) :=
  ⟨by decide, c9_amended_size_of_value [.string] [0, 0, 0, 0, 9] 0 0 (by decide)⟩

/-- An offset-table entry that is well-formed with respect to the payload:
it is at least 2 (so the tag fits before it), the little-endian u16 right
before it spells the column index, and the value's size is computable with
the whole record inside the payload. -/
def goodEntry (schema : List ColumnType) (data : List Nat) (c pos : Nat) : Prop :=
  2 ≤ pos ∧ leNat data (pos - 2) 2 = c ∧
    ∃ sz, sizeOfValue schema data c pos = .ok sz ∧ pos + sz ≤ data.length

/-- Every entry the parse loop adds is well-formed, and well-formedness of
the accumulator is preserved across iterations. -/
theorem parseLoop_invariant (schema : List ColumnType) (data : List Nat) :
    ∀ fuel i acc,
      (∀ c, c < schema.length → acc.getD c 0 = 0 ∨ goodEntry schema data c (acc.getD c 0)) →
      ∀ c, c < schema.length →
        (parseLoop schema data fuel i acc).getD c 0 = 0 ∨
          goodEntry schema data c ((parseLoop schema data fuel i acc).getD c 0) := by
  intro fuel
  induction fuel with
  | zero => intro i acc hacc c hc; exact hacc c hc
  | succ fuel ih =>
    intro i acc hacc c hc
    by_cases hguard : i + 2 < data.length
    · by_cases hj : leNat data i 2 ≥ schema.length
      · simp only [parseLoop, if_pos hguard, if_pos hj]
        exact ih (i + 2) acc hacc c hc
      · simp only [parseLoop, if_pos hguard, if_neg hj]
        rcases hs : sizeOfValue schema data (leNat data i 2) (i + 2) with e | sz
        · exact hacc c hc
        · by_cases hsz : i + 2 + sz > data.length
          · simpa [hsz] using hacc c hc
          · simp only [if_neg hsz]
            refine ih (i + 2 + sz) _ ?_ c hc
            intro c' hc'
            by_cases hcc : leNat data i 2 = c'
            · subst hcc
              by_cases hlt : leNat data i 2 < acc.length
              · right
                rw [getD_set_self hlt]
                exact ⟨by omega, by simp, sz, hs, by omega⟩
              · rw [List.set_eq_of_length_le (by omega)]
                exact hacc _ hc'
            · rw [getD_set_ne hcc]
              exact hacc c' hc'
    · simp only [parseLoop, if_neg hguard]
      exact hacc c hc

/-- C8: offset parse invariant.  After lookup-table construction from any
byte slice, every column's entry is either 0 or a well-formed entry: the
range `[offset[c]−2, offset[c]+size_of(c))` lies inside the payload and the
u16 at `offset[c]−2` equals `c`. -/
theorem c8_offset_parse_invariant (schema : List ColumnType) (data : List Nat)
    (c : Nat) (hc : c < schema.length) :
    (buildLookup schema data).getD c 0 = 0 ∨
      goodEntry schema data c ((buildLookup schema data).getD c 0) := by
  unfold buildLookup
  refine parseLoop_invariant schema data data.length 0 _ ?_ c hc
  intro c' _
  exact Or.inl (getD_replicate_zero _ _)

/-- Witness for `c8_offset_parse_invariant` on the one-column `Int`
payload. -/
theorem c8_witness :
    ((0 : Nat) < ([ColumnType.int] : List ColumnType).length) ∧
    ((buildLookup [.int] [0, 0, 7, 0, 0, 0]).getD 0 0 = 0 ∨
      goodEntry [.int] [0, 0, 7, 0, 0, 0] 0
        ((buildLookup [.int] [0, 0, 7, 0, 0, 0]).getD 0 0)) :=
  ⟨by decide, c8_offset_parse_invariant [.int] [0, 0, 7, 0, 0, 0] 0 (by decide)⟩

/-! ## State lemmas for the shared accessor plumbing -/

/-- `mapOk` keeps the state. -/
theorem mapOk_fst {α β : Type} (r : St × Except Err α) (g : α → β) :
    (mapOk r g).1 = r.1 := by
  rcases r with ⟨st, x⟩; cases x <;> rfl

/-- `mapOk` propagates errors unchanged. -/
theorem mapOk_error {α β : Type} {r : St × Except Err α} (g : α → β) {e : Err}
    (h : r.2 = .error e) : (mapOk r g).2 = .error e := by
  rcases r with ⟨st, x⟩; cases x <;> simp_all [mapOk]

/-- `mapOk` transforms successes. -/
theorem mapOk_ok {α β : Type} {r : St × Except Err α} (g : α → β) {v : α}
    (h : r.2 = .ok v) : (mapOk r g).2 = .ok (g v) := by
  rcases r with ⟨st, x⟩; cases x <;> simp_all [mapOk]

/-- `index2Index` never touches the heap and only ever materializes the
lookup table: heap, schema, buffer reference and mutability are kept. -/
theorem index2Index_state (st : St) (col : Nat) :
    (index2Index st col).1.heap = st.heap ∧
    (index2Index st col).1.props.schema = st.props.schema ∧
    (index2Index st col).1.props.ref = st.props.ref ∧
    (index2Index st col).1.props.mutableFlag = st.props.mutableFlag := by
  unfold index2Index
  split
  · exact ⟨rfl, rfl, rfl, rfl⟩
  · split
    · exact ⟨rfl, rfl, rfl, rfl⟩
    · split
      · exact ⟨rfl, rfl, rfl, rfl⟩
      · exact ⟨rfl, rfl, rfl, rfl⟩

/-- The bytes seen through `index2Index`'s result state are the original
bytes. -/
theorem index2Index_bytes (st : St) (col : Nat) :
    bytesOf (index2Index st col).1 = bytesOf st := by
  obtain ⟨hh, _, hr, _⟩ := index2Index_state st col
  unfold bytesOf
  rw [hh, hr]

/-- Rerunning `index2Index` on its own result state changes nothing and
returns the same answer: once materialized, the lookup table is reused. -/
theorem index2Index_idem (st : St) (col : Nat) :
    index2Index (index2Index st col).1 col = ((index2Index st col).1, (index2Index st col).2) := by
  by_cases hcol : col ≥ st.props.schema.length
  · simp [index2Index, hcol]
  · rcases hl : st.props.lookup with _ | l
    · by_cases hm : st.props.mutableFlag
      · simp [index2Index, hcol, hl, hm]
      · simp [index2Index, hcol, hl, hm]
    · simp [index2Index, hcol, hl]

/-- In-range columns always resolve without error (possibly to "no value
stored"). -/
theorem index2Index_ok_of_lt (st : St) (col : Nat) (hcol : col < st.props.schema.length) :
    ∃ pos, (index2Index st col).2 = .ok pos := by
  have hcol' : ¬ col ≥ st.props.schema.length := Nat.not_le.mpr hcol
  rcases hl : st.props.lookup with _ | l
  · by_cases hm : st.props.mutableFlag
    · simp only [index2Index, if_neg hcol', hl, if_pos hm]
      exact ⟨0, rfl⟩
    · simp only [index2Index, if_neg hcol', hl, if_neg hm]
      exact ⟨_, rfl⟩
  · simp only [index2Index, if_neg hcol', hl]
    exact ⟨_, rfl⟩

/-- `check` evaluated: it returns `TypeMismatch` exactly on disagreement. -/
theorem check_mismatch (st : St) (col : Nat) (T : ColumnType)
    (h : columnTypeOf st.props.schema col ≠ T) : check st col T = .error .typeMismatch := by
  unfold check
  rw [if_neg h]

/-- A fixed-width setter on an in-range column of a different schema type
stops at step 2 with `TypeMismatch`. -/
theorem setFixed_mismatch (st : St) (col : Nat) (T : ColumnType) (enc : List Nat)
    (hcol : col < st.props.schema.length) (hT : columnTypeOf st.props.schema col ≠ T) :
    (setFixed st col T enc).2 = .error .typeMismatch := by
  obtain ⟨pos, hok⟩ := index2Index_ok_of_lt st col hcol
  obtain ⟨_, hsch, _, _⟩ := index2Index_state st col
  rcases h : index2Index st col with ⟨st1, r⟩
  rw [h] at hok hsch
  simp only at hok
  subst hok
  simp only at hsch
  have hchk : check st1 col T = .error .typeMismatch := by
    refine check_mismatch st1 col T ?_
    rw [hsch]
    exact hT
  simp [setFixed, h, hchk]

/-- A variable-width setter on an in-range column of a different schema
type stops at step 2 with `TypeMismatch`. -/
theorem setBinary_mismatch (st : St) (col : Nat) (T : ColumnType) (value : List Nat)
    (hcol : col < st.props.schema.length) (hT : columnTypeOf st.props.schema col ≠ T) :
    (setBinary st col T value).2 = .error .typeMismatch := by
  obtain ⟨pos, hok⟩ := index2Index_ok_of_lt st col hcol
  obtain ⟨_, hsch, _, _⟩ := index2Index_state st col
  rcases h : index2Index st col with ⟨st1, r⟩
  rw [h] at hok hsch
  simp only at hok
  subst hok
  simp only at hsch
  have hchk : check st1 col T = .error .typeMismatch := by
    refine check_mismatch st1 col T ?_
    rw [hsch]
    exact hT
  simp [setBinary, h, hchk]

/-- A fixed-width getter on an in-range column of a different schema type
stops at step 2 with `TypeMismatch`. -/
theorem getFixed_mismatch (st : St) (col : Nat) (T : ColumnType) (w : Nat)
    (hcol : col < st.props.schema.length) (hT : columnTypeOf st.props.schema col ≠ T) :
    (getFixed st col T w).2 = .error .typeMismatch := by
  obtain ⟨pos, hok⟩ := index2Index_ok_of_lt st col hcol
  obtain ⟨_, hsch, _, _⟩ := index2Index_state st col
  rcases h : index2Index st col with ⟨st1, r⟩
  rw [h] at hok hsch
  simp only at hok
  subst hok
  simp only at hsch
  have hchk : check st1 col T = .error .typeMismatch := by
    refine check_mismatch st1 col T ?_
    rw [hsch]
    exact hT
  simp [getFixed, h, hchk]

/-- A variable-width getter on an in-range column of a different schema
type stops at step 2 with `TypeMismatch`. -/
theorem getBinary_mismatch (st : St) (col : Nat) (T : ColumnType)
    (hcol : col < st.props.schema.length) (hT : columnTypeOf st.props.schema col ≠ T) :
    (getBinary st col T).2 = .error .typeMismatch := by
  obtain ⟨pos, hok⟩ := index2Index_ok_of_lt st col hcol
  obtain ⟨_, hsch, _, _⟩ := index2Index_state st col
  rcases h : index2Index st col with ⟨st1, r⟩
  rw [h] at hok hsch
  simp only at hok
  subst hok
  simp only at hsch
  have hchk : check st1 col T = .error .typeMismatch := by
    refine check_mismatch st1 col T ?_
    rw [hsch]
    exact hT
  simp [getBinary, h, hchk]

/-- `GetDateTime` propagates `getBinary`'s errors unchanged. -/
theorem GetDateTime_error (st : St) (col : Nat) (e : Err)
    (h : (getBinary st col .dateTime).2 = .error e) :
    (GetDateTime st col).2 = .error e := by
  rcases hg : getBinary st col .dateTime with ⟨st1, r⟩
  rw [hg] at h
  simp only at h
  subst h
  simp [GetDateTime, hg]

/-- C6: type policing.  On an in-range column whose schema type differs
from the accessor's type, every typed setter and every typed getter fails
`TypeMismatch`; the dynamic `set_any` dispatches on the runtime type of the
value and is policed the same way, and a runtime value mapping to no
column type fails with the unmappable-value error. -/
theorem c6_type_policing (st : St) (col : Nat) (hcol : col < st.props.schema.length) :
    (∀ o : SetOp, setOpType o ≠ columnTypeOf st.props.schema col →
        (runSet o st col).2 = .error .typeMismatch) ∧
    (∀ g : GetOp, getOpType g ≠ columnTypeOf st.props.schema col →
        (runGet g st col).2 = .error .typeMismatch) ∧
    (∀ v : AnyValue, ∀ T, anyValueType v = some T →
        T ≠ columnTypeOf st.props.schema col →
        (SetValue st col v).2 = .error .typeMismatch) ∧
    (∀ v : AnyValue, anyValueType v = none →
        (SetValue st col v).2 = .error .unmappableValue) := by
  refine ⟨fun o ho => ?_, fun g hg => ?_, fun v T hvT hT => ?_, fun v hv => ?_⟩
  · cases o <;>
      first
      | exact setFixed_mismatch st col _ _ hcol (Ne.symm ho)
      | exact setBinary_mismatch st col _ _ hcol (Ne.symm ho)
  · cases g <;>
      first
      | exact mapOk_error _ (mapOk_error _ (getFixed_mismatch st col _ _ hcol (Ne.symm hg)))
      | exact mapOk_error _ (getFixed_mismatch st col _ _ hcol (Ne.symm hg))
      | exact mapOk_error _ (getBinary_mismatch st col _ hcol (Ne.symm hg))
      | exact mapOk_error _
          (GetDateTime_error st col _ (getBinary_mismatch st col _ hcol (Ne.symm hg)))
  · cases v <;>
      first
      | (simp only [anyValueType, Option.some.injEq] at hvT
         subst hvT
         first
         | exact setFixed_mismatch st col _ _ hcol (Ne.symm hT)
         | exact setBinary_mismatch st col _ _ hcol (Ne.symm hT))
      | simp [anyValueType] at hvT
  · cases v <;>
      first
      | rfl
      | simp [anyValueType] at hv

/-- Witness for `c6_type_policing` on a one-column `Bool` schema. -/
theorem c6_witness :
    ((0 : Nat) < stFresh.props.schema.length) ∧
    ((∀ o : SetOp, setOpType o ≠ columnTypeOf stFresh.props.schema 0 →
        (runSet o stFresh 0).2 = .error .typeMismatch) ∧
     (∀ g : GetOp, getOpType g ≠ columnTypeOf stFresh.props.schema 0 →
        (runGet g stFresh 0).2 = .error .typeMismatch) ∧
     (∀ v : AnyValue, ∀ T, anyValueType v = some T →
        T ≠ columnTypeOf stFresh.props.schema 0 →
        (SetValue stFresh 0 v).2 = .error .typeMismatch) ∧
     (∀ v : AnyValue, anyValueType v = none →
        (SetValue stFresh 0 v).2 = .error .unmappableValue)) :=
  ⟨by decide, c6_type_policing stFresh 0 (by decide)⟩

/-! ## Read-only operations: purity and repeat-read stability -/

/-- A read-only operation: its only possible state effect is the one
`index2Index` performs (lookup materialization) — the result state is the
input state or `index2Index`'s state — and rerunning it on its own result
state is a no-op returning the same answer. -/
def PureRead {α : Type} (f : St → Nat → St × Except Err α) : Prop :=
  ∀ st col, ((f st col).1 = st ∨ (f st col).1 = (index2Index st col).1) ∧
    f ((f st col).1) col = ((f st col).1, (f st col).2)

/-- The fixed-width getter body is a pure read. -/
theorem getFixed_pure (T : ColumnType) (w : Nat) :
    PureRead (fun st col => getFixed st col T w) := by
  intro st col
  dsimp only
  rcases h : index2Index st col with ⟨st1, r⟩
  have hid : index2Index st1 col = (st1, r) := by
    have hx := index2Index_idem st col
    rw [h] at hx
    simpa using hx
  cases r with
  | error e =>
    have hA : getFixed st col T w = (st1, .error e) := by simp [getFixed, h]
    exact ⟨Or.inr (by rw [hA]), by rw [hA]; simp [getFixed, hid]⟩
  | ok pos =>
    cases hc : check st1 col T with
    | error e =>
      have hA : getFixed st col T w = (st1, .error e) := by simp [getFixed, h, hc]
      exact ⟨Or.inr (by rw [hA]), by rw [hA]; simp [getFixed, hid, hc]⟩
    | ok u =>
      by_cases hp : pos = 0
      · have hA : getFixed st col T w = (st1, .error .noValue) := by
          simp [getFixed, h, hc, hp]
        exact ⟨Or.inr (by rw [hA]), by rw [hA]; simp [getFixed, hid, hc, hp]⟩
      · by_cases hw : pos + w ≤ (bytesOf st1).length
        · have hA : getFixed st col T w = (st1, .ok (leNat (bytesOf st1) pos w)) := by
            simp [getFixed, h, hc, hp, hw]
          exact ⟨Or.inr (by rw [hA]), by rw [hA]; simp [getFixed, hid, hc, hp, hw]⟩
        · have hA : getFixed st col T w = (st1, .error .crash) := by
            simp [getFixed, h, hc, hp, hw]
          exact ⟨Or.inr (by rw [hA]), by rw [hA]; simp [getFixed, hid, hc, hp, hw]⟩

/-- The variable-width getter body is a pure read. -/
theorem getBinary_pure (T : ColumnType) :
    PureRead (fun st col => getBinary st col T) := by
  intro st col
  dsimp only
  rcases h : index2Index st col with ⟨st1, r⟩
  have hid : index2Index st1 col = (st1, r) := by
    have hx := index2Index_idem st col
    rw [h] at hx
    simpa using hx
  cases r with
  | error e =>
    have hA : getBinary st col T = (st1, .error e) := by simp [getBinary, h]
    exact ⟨Or.inr (by rw [hA]), by rw [hA]; simp [getBinary, hid]⟩
  | ok pos =>
    cases hc : check st1 col T with
    | error e =>
      have hA : getBinary st col T = (st1, .error e) := by simp [getBinary, h, hc]
      exact ⟨Or.inr (by rw [hA]), by rw [hA]; simp [getBinary, hid, hc]⟩
    | ok u =>
      by_cases hp : pos = 0
      · have hA : getBinary st col T = (st1, .error .noValue) := by
          simp [getBinary, h, hc, hp]
        exact ⟨Or.inr (by rw [hA]), by rw [hA]; simp [getBinary, hid, hc, hp]⟩
      · by_cases h4 : pos + 4 ≤ (bytesOf st1).length
        · by_cases hn : leNat (bytesOf st1) pos 4 ≤ maxInt - 4
          · by_cases hin : pos + 4 + leNat (bytesOf st1) pos 4 ≤ (bytesOf st1).length
            · have hA : getBinary st col T =
                  (st1, .ok (((bytesOf st1).drop (pos + 4)).take (leNat (bytesOf st1) pos 4))) := by
                simp [getBinary, h, hc, hp, h4, hn, hin]
              exact ⟨Or.inr (by rw [hA]), by rw [hA]; simp [getBinary, hid, hc, hp, h4, hn, hin]⟩
            · have hA : getBinary st col T = (st1, .error .crash) := by
                simp [getBinary, h, hc, hp, h4, hn, hin]
              exact ⟨Or.inr (by rw [hA]), by rw [hA]; simp [getBinary, hid, hc, hp, h4, hn, hin]⟩
          · have hA : getBinary st col T = (st1, .error .stringSizeOverflowsInt) := by
              simp [getBinary, h, hc, hp, h4, hn]
            exact ⟨Or.inr (by rw [hA]), by rw [hA]; simp [getBinary, hid, hc, hp, h4, hn]⟩
        · have hA : getBinary st col T = (st1, .error .crash) := by
            simp [getBinary, h, hc, hp, h4]
          exact ⟨Or.inr (by rw [hA]), by rw [hA]; simp [getBinary, hid, hc, hp, h4]⟩

/-- `GetDateTime` is a pure read. -/
theorem GetDateTime_pure : PureRead GetDateTime := by
  intro st col
  obtain ⟨h1, h2⟩ := getBinary_pure .dateTime st col
  dsimp only at h1 h2
  rcases hg : getBinary st col .dateTime with ⟨st1, r⟩
  rw [hg] at h1 h2
  simp only at h1 h2
  cases r with
  | error e =>
    have hA : GetDateTime st col = (st1, .error e) := by simp [GetDateTime, hg]
    exact ⟨by rw [hA]; exact h1, by rw [hA]; simp [GetDateTime, h2]⟩
  | ok bs =>
    by_cases he : bs.isEmpty
    · have hA : GetDateTime st col = (st1, .error .crash) := by simp [GetDateTime, hg, he]
      exact ⟨by rw [hA]; exact h1, by rw [hA]; simp [GetDateTime, h2, he]⟩
    · have hA : GetDateTime st col = (st1, .ok bs) := by simp [GetDateTime, hg, he]
      exact ⟨by rw [hA]; exact h1, by rw [hA]; simp [GetDateTime, h2, he]⟩

/-- Wrapping a pure read's value (the `v, err :=` pattern) keeps it a pure
read. -/
theorem mapOk_pure {α β : Type} (g : α → β) (f : St → Nat → St × Except Err α)
    (hf : PureRead f) : PureRead (fun st col => mapOk (f st col) g) := by
  intro st col
  dsimp only
  obtain ⟨h1, h2⟩ := hf st col
  rcases hr : f st col with ⟨st1, r⟩
  rw [hr] at h1 h2
  simp only at h1 h2
  cases r with
  | error e =>
    refine ⟨by simp [mapOk, hr]; exact h1, ?_⟩
    simp [mapOk, hr, h2]
  | ok v =>
    refine ⟨by simp [mapOk, hr]; exact h1, ?_⟩
    simp [mapOk, hr, h2]

/-- Wrapping a pure read through the crash-on-error date-time arm keeps it
a pure read. -/
theorem mapOkOrCrash_pure (g : List Nat → Value) (f : St → Nat → St × Except Err (List Nat))
    (hf : PureRead f) : PureRead (fun st col => mapOkOrCrash (f st col) g) := by
  intro st col
  dsimp only
  obtain ⟨h1, h2⟩ := hf st col
  rcases hr : f st col with ⟨st1, r⟩
  rw [hr] at h1 h2
  simp only at h1 h2
  cases r with
  | error e =>
    refine ⟨by simp [mapOkOrCrash, hr]; exact h1, ?_⟩
    simp [mapOkOrCrash, hr, h2]
  | ok v =>
    refine ⟨by simp [mapOkOrCrash, hr]; exact h1, ?_⟩
    simp [mapOkOrCrash, hr, h2]

/-- The result state of a pure read carries the same schema. -/
theorem pure_state_schema {α : Type} {f : St → Nat → St × Except Err α}
    (hf : PureRead f) (st : St) (col : Nat) :
    ((f st col).1).props.schema = st.props.schema := by
  rcases (hf st col).1 with h | h
  · rw [h]
  · rw [h]; exact (index2Index_state st col).2.1

/-- A `GetValue` dispatch arm of the `mapOk` shape inherits purity from
its getter. -/
theorem GetValue_arm_pure {α : Type} (get : St → Nat → St × Except Err α) (tag : α → Value)
    (hget : PureRead get) (st : St) (col : Nat)
    (harm : ∀ s : St, s.props.schema = st.props.schema →
        GetValue s col = mapOk (get s col) tag) :
    ((GetValue st col).1 = st ∨ (GetValue st col).1 = (index2Index st col).1) ∧
    GetValue ((GetValue st col).1) col = ((GetValue st col).1, (GetValue st col).2) := by
  have hm := mapOk_pure tag get hget st col
  try dsimp only at hm
  obtain ⟨h1, h2⟩ := hm
  have h0 : GetValue st col = mapOk (get st col) tag := harm st rfl
  refine ⟨by rw [h0]; exact h1, ?_⟩
  have hsc : ((mapOk (get st col) tag).1).props.schema = st.props.schema := by
    have hx := pure_state_schema (mapOk_pure tag get hget) st col
    try dsimp only at hx
    exact hx
  rw [h0, harm _ hsc]
  exact h2

/-- The `GetValue` date-time arm inherits purity from `GetDateTime`. -/
theorem GetValue_arm_crash_pure (get : St → Nat → St × Except Err (List Nat))
    (tag : List Nat → Value) (hget : PureRead get) (st : St) (col : Nat)
    (harm : ∀ s : St, s.props.schema = st.props.schema →
        GetValue s col = mapOkOrCrash (get s col) tag) :
    ((GetValue st col).1 = st ∨ (GetValue st col).1 = (index2Index st col).1) ∧
    GetValue ((GetValue st col).1) col = ((GetValue st col).1, (GetValue st col).2) := by
  have hm := mapOkOrCrash_pure tag get hget st col
  try dsimp only at hm
  obtain ⟨h1, h2⟩ := hm
  have h0 : GetValue st col = mapOkOrCrash (get st col) tag := harm st rfl
  refine ⟨by rw [h0]; exact h1, ?_⟩
  have hsc : ((mapOkOrCrash (get st col) tag).1).props.schema = st.props.schema := by
    have hx := pure_state_schema (mapOkOrCrash_pure tag get hget) st col
    try dsimp only at hx
    exact hx
  rw [h0, harm _ hsc]
  exact h2

/-- The dynamic getter is a pure read. -/
theorem GetValue_pure : PureRead GetValue := by
  intro st col
  cases hty : columnTypeOf st.props.schema col with
  | bool =>
    exact GetValue_arm_pure GetBool Value.b (mapOk_pure _ _ (getFixed_pure .bool 1)) st col
      (fun s hs => by unfold GetValue; rw [hs, hty])
  | byte =>
    exact GetValue_arm_pure GetByte Value.n (getFixed_pure .byte 1) st col
      (fun s hs => by unfold GetValue; rw [hs, hty])
  | ubyte =>
    exact GetValue_arm_pure GetUByte Value.n (getFixed_pure .ubyte 1) st col
      (fun s hs => by unfold GetValue; rw [hs, hty])
  | short =>
    exact GetValue_arm_pure GetShort Value.n (getFixed_pure .short 2) st col
      (fun s hs => by unfold GetValue; rw [hs, hty])
  | ushort =>
    exact GetValue_arm_pure GetUShort Value.n (getFixed_pure .ushort 2) st col
      (fun s hs => by unfold GetValue; rw [hs, hty])
  | int =>
    exact GetValue_arm_pure GetInt Value.n (getFixed_pure .int 4) st col
      (fun s hs => by unfold GetValue; rw [hs, hty])
  | uint =>
    exact GetValue_arm_pure GetUInt Value.n (getFixed_pure .uint 4) st col
      (fun s hs => by unfold GetValue; rw [hs, hty])
  | long =>
    exact GetValue_arm_pure GetLong Value.n (getFixed_pure .long 8) st col
      (fun s hs => by unfold GetValue; rw [hs, hty])
  | ulong =>
    exact GetValue_arm_pure GetULong Value.n (getFixed_pure .ulong 8) st col
      (fun s hs => by unfold GetValue; rw [hs, hty])
  | float =>
    exact GetValue_arm_pure GetFloat Value.n (getFixed_pure .float 4) st col
      (fun s hs => by unfold GetValue; rw [hs, hty])
  | double =>
    exact GetValue_arm_pure GetDouble Value.n (getFixed_pure .double 8) st col
      (fun s hs => by unfold GetValue; rw [hs, hty])
  | string =>
    exact GetValue_arm_pure GetString Value.s (getBinary_pure .string) st col
      (fun s hs => by unfold GetValue; rw [hs, hty])
  | json =>
    exact GetValue_arm_pure GetJSON Value.s (getBinary_pure .json) st col
      (fun s hs => by unfold GetValue; rw [hs, hty])
  | binary =>
    exact GetValue_arm_pure GetBinary Value.bin (getBinary_pure .binary) st col
      (fun s hs => by unfold GetValue; rw [hs, hty])
  | dateTime =>
    exact GetValue_arm_crash_pure GetDateTime Value.dt GetDateTime_pure st col
      (fun s hs => by unfold GetValue; rw [hs, hty])
  | unknown =>
    have h0 : GetValue st col = (st, .error .invalidColumnType) := by
      unfold GetValue; rw [hty]
    refine ⟨Or.inl (by rw [h0]), ?_⟩
    rw [h0]
    dsimp only
    exact h0

/-- Every typed getter dispatch is a pure read. -/
theorem runGet_pure (g : GetOp) : PureRead (fun st col => runGet g st col) := by
  cases g with
  | gBool => exact mapOk_pure Value.b GetBool (mapOk_pure _ _ (getFixed_pure .bool 1))
  | gByte => exact mapOk_pure Value.n GetByte (getFixed_pure .byte 1)
  | gUByte => exact mapOk_pure Value.n GetUByte (getFixed_pure .ubyte 1)
  | gShort => exact mapOk_pure Value.n GetShort (getFixed_pure .short 2)
  | gUShort => exact mapOk_pure Value.n GetUShort (getFixed_pure .ushort 2)
  | gInt => exact mapOk_pure Value.n GetInt (getFixed_pure .int 4)
  | gUInt => exact mapOk_pure Value.n GetUInt (getFixed_pure .uint 4)
  | gLong => exact mapOk_pure Value.n GetLong (getFixed_pure .long 8)
  | gULong => exact mapOk_pure Value.n GetULong (getFixed_pure .ulong 8)
  | gFloat => exact mapOk_pure Value.n GetFloat (getFixed_pure .float 4)
  | gDouble => exact mapOk_pure Value.n GetDouble (getFixed_pure .double 8)
  | gString => exact mapOk_pure Value.s GetString (getBinary_pure .string)
  | gJSON => exact mapOk_pure Value.s GetJSON (getBinary_pure .json)
  | gBinary => exact mapOk_pure Value.bin GetBinary (getBinary_pure .binary)
  | gDateTime => exact mapOk_pure Value.dt GetDateTime GetDateTime_pure
  | gDateTimeString => exact mapOk_pure Value.s GetDateTimeString (getBinary_pure .dateTime)

/-- Every read operation — typed getters, the dynamic getter, and `Has` —
is a pure read. -/
theorem runRead_pure (ro : ReadOp) : PureRead (fun st col => runRead ro st col) := by
  cases ro with
  | get g => exact runGet_pure g
  | getAny => exact GetValue_pure
  | has =>
    intro st col
    dsimp only
    rcases h : index2Index st col with ⟨st1, r⟩
    have hid : index2Index st1 col = (st1, r) := by
      have hx := index2Index_idem st col
      rw [h] at hx
      simpa using hx
    have hHas : Has st col = (st1, false) := by
      unfold Has; rw [h]; cases r <;> rfl
    have hHas1 : Has st1 col = (st1, false) := by
      unfold Has; rw [hid]; cases r <;> rfl
    have hA : runRead .has st col = (st1, .ok (.b false)) := by
      unfold runRead; rw [hHas]
    refine ⟨Or.inr (by simp [hA, h]), ?_⟩
    rw [hA]
    dsimp only
    unfold runRead
    rw [hHas1]

/-- Frame consequences of purity: heap, mutability and payload bytes are
untouched, and an identical second run returns the same result. -/
theorem pure_read_frame {α : Type} {f : St → Nat → St × Except Err α}
    (hf : PureRead f) (st : St) (col : Nat) :
    (f st col).1.heap = st.heap ∧
    (f st col).1.props.mutableFlag = st.props.mutableFlag ∧
    bytesOf (f st col).1 = bytesOf st ∧
    (f ((f st col).1) col).2 = (f st col).2 := by
  obtain ⟨h1, h2⟩ := hf st col
  have h2x : (f ((f st col).1) col).2 = (f st col).2 := by rw [h2]
  rcases h1 with h1 | h1
  · rw [h1] at h2x ⊢
    exact ⟨rfl, rfl, rfl, h2x⟩
  · obtain ⟨hh, _, _, hm⟩ := index2Index_state st col
    rw [h1] at h2x ⊢
    exact ⟨hh, hm, by rw [index2Index_bytes], h2x⟩

/-- C10: every read-only operation (typed getters, the dynamic getter and
`Has`) leaves the heap, the payload bytes and the mutable flag unchanged
(it may only materialize the lazy lookup table), and running the same
operation again on the resulting set returns the same result. -/
theorem c10_reads_are_pure (st : St) (col : Nat) (ro : ReadOp) :
    (runRead ro st col).1.heap = st.heap ∧
    (runRead ro st col).1.props.mutableFlag = st.props.mutableFlag ∧
    bytesOf (runRead ro st col).1 = bytesOf st ∧
    (runRead ro (runRead ro st col).1 col).2 = (runRead ro st col).2 := by
  have hx := pure_read_frame (runRead_pure ro) st col
  try dsimp only at hx
  exact hx

/-! ## Copy-on-write isolation: frame lemmas for the mutating path -/

/-- `mutate` on an already-mutable set is a no-op. -/
theorem mutate_of_mutable (st : St) (h : st.props.mutableFlag = true) : mutate st = st := by
  simp [mutate, h]

/-- `mutate` on an immutable set duplicates the buffer into a fresh heap
cell and repoints the set at the copy. -/
theorem mutate_of_immutable (st : St) (h : st.props.mutableFlag = false) :
    mutate st = { heap := st.heap ++ [bytesOf st],
                  props := { st.props with ref := st.heap.length, mutableFlag := true } } := by
  simp [mutate, h]

/-- `setOwnBytes` only writes the set's own heap cell. -/
theorem setOwnBytes_frame (st : St) (d : List Nat) (i : Nat) (hi : i ≠ st.props.ref) :
    (setOwnBytes st d).heap.getD i [] = st.heap.getD i [] := by
  unfold setOwnBytes
  exact getD_set_ne (fun he => hi he.symm)

/-- `setOwnBytes` keeps the property-set fields. -/
theorem setOwnBytes_props (st : St) (d : List Nat) : (setOwnBytes st d).props = st.props := rfl

/-- `writeLE` only writes the set's own heap cell. -/
theorem writeLE_frame (st : St) (pos : Nat) (enc : List Nat) (i : Nat)
    (hi : i ≠ st.props.ref) :
    ((writeLE st pos enc).1).heap.getD i [] = st.heap.getD i [] := by
  unfold writeLE
  dsimp only
  split
  · exact setOwnBytes_frame st _ i hi
  · rfl

/-- `writeLE` keeps the property-set fields. -/
theorem writeLE_props (st : St) (pos : Nat) (enc : List Nat) :
    ((writeLE st pos enc).1).props = st.props := by
  unfold writeLE
  dsimp only
  split
  · rfl
  · rfl

/-- `extend` only writes the set's own heap cell. -/
theorem extend_frame (st : St) (col n : Nat) (i : Nat) (hi : i ≠ st.props.ref) :
    ((extend st col n).1).heap.getD i [] = st.heap.getD i [] := by
  unfold extend
  rcases st.props.lookup with _ | l
  · rfl
  · dsimp only
    split
    · rfl
    · exact setOwnBytes_frame st _ i hi

/-- `extend` keeps the buffer reference and the mutable flag. -/
theorem extend_ref (st : St) (col n : Nat) :
    ((extend st col n).1).props.ref = st.props.ref ∧
    ((extend st col n).1).props.mutableFlag = st.props.mutableFlag := by
  unfold extend
  rcases st.props.lookup with _ | l
  · exact ⟨rfl, rfl⟩
  · dsimp only
    split
    · exact ⟨rfl, rfl⟩
    · exact ⟨rfl, rfl⟩

/-- On an already-mutable set, `delete` only writes the set's own heap
cell. -/
theorem deleteLow_frame (st : St) (col pos : Nat) (i : Nat)
    (hmut : st.props.mutableFlag = true) (hi : i ≠ st.props.ref) :
    ((deleteLow st col pos).1).heap.getD i [] = st.heap.getD i [] := by
  unfold deleteLow
  rw [mutate_of_mutable st hmut]
  dsimp only
  rcases sizeOfValue st.props.schema (bytesOf st) col pos with e | sz
  · rfl
  · dsimp only
    split
    · rfl
    · rcases st.props.lookup with _ | l
      · rfl
      · exact setOwnBytes_frame st _ i hi

/-- On an already-mutable set, `delete` keeps the buffer reference and the
mutable flag. -/
theorem deleteLow_ref (st : St) (col pos : Nat) (hmut : st.props.mutableFlag = true) :
    ((deleteLow st col pos).1).props.ref = st.props.ref ∧
    ((deleteLow st col pos).1).props.mutableFlag = true := by
  unfold deleteLow
  rw [mutate_of_mutable st hmut]
  dsimp only
  rcases sizeOfValue st.props.schema (bytesOf st) col pos with e | sz
  · exact ⟨rfl, hmut⟩
  · dsimp only
    split
    · exact ⟨rfl, hmut⟩
    · rcases st.props.lookup with _ | l
      · exact ⟨rfl, hmut⟩
      · exact ⟨rfl, hmut⟩

/-- `mutate` preserves every heap cell that already existed. -/
theorem mutate_frame (st : St) (i : Nat) (hi : i < st.heap.length) :
    (mutate st).heap.getD i [] = st.heap.getD i [] := by
  unfold mutate
  split
  · rfl
  · exact getD_append_left hi []

/-- A fixed-width setter on an immutable set never writes any
pre-existing heap cell: the single `mutate` call precedes every write, so
all writes go to the freshly allocated copy. -/
theorem setFixed_frame (st : St) (col : Nat) (T : ColumnType) (enc : List Nat) (i : Nat)
    (him : st.props.mutableFlag = false) (hi : i < st.heap.length) :
    ((setFixed st col T enc).1).heap.getD i [] = st.heap.getD i [] := by
  rcases h : index2Index st col with ⟨st1, r⟩
  have hstate := index2Index_state st col
  rw [h] at hstate
  simp only at hstate
  obtain ⟨hh, hsch, href, hfl⟩ := hstate
  have hfl1 : st1.props.mutableFlag = false := by rw [hfl]; exact him
  have hi1 : i < st1.heap.length := by rw [hh]; exact hi
  have hmu := mutate_of_immutable st1 hfl1
  have hmug : (mutate st1).heap.getD i [] = st.heap.getD i [] := by
    rw [hmu]
    exact (getD_append_left hi1 []).trans (by rw [hh])
  have hine : i ≠ (mutate st1).props.ref := by
    rw [hmu]
    simp only
    omega
  cases r with
  | error e =>
    simp only [setFixed, h]
    rw [hh]
  | ok pos =>
    cases hc : check st1 col T with
    | error e =>
      simp only [setFixed, h, hc]
      rw [hh]
    | ok u =>
      by_cases hp : pos > 0
      · simp only [setFixed, h, hc, if_pos hp]
        rw [writeLE_frame _ _ _ i hine, hmug]
      · simp only [setFixed, h, hc, if_neg hp]
        rcases hx : extend (mutate st1) col enc.length with ⟨st3, rx⟩
        have hxf := extend_frame (mutate st1) col enc.length i hine
        rw [hx] at hxf
        simp only at hxf
        have hxr := (extend_ref (mutate st1) col enc.length).1
        rw [hx] at hxr
        simp only at hxr
        cases rx with
        | error e =>
          simp only [hx]
          rw [hxf, hmug]
        | ok u2 =>
          simp only [hx]
          rw [writeLE_frame _ _ _ i (by rw [hxr]; exact hine), hxf, hmug]

/-- A variable-width setter on an immutable set never writes any
pre-existing heap cell. -/
theorem setBinary_frame (st : St) (col : Nat) (T : ColumnType) (value : List Nat) (i : Nat)
    (him : st.props.mutableFlag = false) (hi : i < st.heap.length) :
    ((setBinary st col T value).1).heap.getD i [] = st.heap.getD i [] := by
  rcases h : index2Index st col with ⟨st1, r⟩
  have hstate := index2Index_state st col
  rw [h] at hstate
  simp only at hstate
  obtain ⟨hh, hsch, href, hfl⟩ := hstate
  have hfl1 : st1.props.mutableFlag = false := by rw [hfl]; exact him
  have hi1 : i < st1.heap.length := by rw [hh]; exact hi
  have hmu := mutate_of_immutable st1 hfl1
  have hmug : (mutate st1).heap.getD i [] = st.heap.getD i [] := by
    rw [hmu]
    exact (getD_append_left hi1 []).trans (by rw [hh])
  have hmuflag : (mutate st1).props.mutableFlag = true := by rw [hmu]
  have hine : i ≠ (mutate st1).props.ref := by
    rw [hmu]
    simp only
    omega
  cases r with
  | error e =>
    simp only [setBinary, h]
    rw [hh]
  | ok pos =>
    cases hc : check st1 col T with
    | error e =>
      simp only [setBinary, h, hc]
      rw [hh]
    | ok u =>
      by_cases hp : pos > 0
      · by_cases h4 : pos + 4 ≤ (bytesOf (mutate st1)).length
        · by_cases hn : leNat (bytesOf (mutate st1)) pos 4 = value.length % 2 ^ 32
          · simp only [setBinary, h, hc, if_pos hp, if_pos h4, if_pos hn]
            rcases hw : writeLE (mutate st1) pos (leBytes 4 (value.length % 2 ^ 32)) with ⟨st3, rw3⟩
            have hwf := writeLE_frame (mutate st1) pos (leBytes 4 (value.length % 2 ^ 32)) i hine
            rw [hw] at hwf
            simp only at hwf
            have hwp := writeLE_props (mutate st1) pos (leBytes 4 (value.length % 2 ^ 32))
            rw [hw] at hwp
            simp only at hwp
            cases rw3 with
            | error e =>
              simp only [hw]
              rw [hwf, hmug]
            | ok u2 =>
              simp only [hw]
              rw [setOwnBytes_frame st3 _ i (by rw [hwp]; exact hine), hwf, hmug]
          · simp only [setBinary, h, hc, if_pos hp, if_pos h4, if_neg hn]
            rcases hd : deleteLow (mutate st1) col pos with ⟨st4, rd⟩
            have hdf := deleteLow_frame (mutate st1) col pos i hmuflag hine
            rw [hd] at hdf
            simp only at hdf
            have hdr := (deleteLow_ref (mutate st1) col pos hmuflag).1
            rw [hd] at hdr
            simp only at hdr
            cases rd with
            | error e =>
              simp only [hd]
              rw [hdf, hmug]
            | ok u2 =>
              simp only [hd]
              rcases hx : extend st4 col value.length with ⟨st5, rx⟩
              have hxf := extend_frame st4 col value.length i (by rw [hdr]; exact hine)
              rw [hx] at hxf
              simp only at hxf
              cases rx with
              | error e =>
                simp only [hx]
                rw [hxf, hdf, hmug]
              | ok u3 =>
                simp only [hx]
                rw [hxf, hdf, hmug]
        · simp only [setBinary, h, hc, if_pos hp, if_neg h4]
          rw [hmug]
      · simp only [setBinary, h, hc, if_neg hp]
        rcases hx : extend (mutate st1) col value.length with ⟨st5, rx⟩
        have hxf := extend_frame (mutate st1) col value.length i hine
        rw [hx] at hxf
        simp only at hxf
        cases rx with
        | error e =>
          simp only [hx]
          rw [hxf, hmug]
        | ok u2 =>
          simp only [hx]
          rw [hxf, hmug]

/-- `Delete` (whose guard always takes the early-return path) never
touches the heap. -/
theorem Delete_frame (st : St) (col : Nat) (i : Nat) :
    ((Delete st col).1).heap.getD i [] = st.heap.getD i [] := by
  have hh := (index2Index_state st col).1
  rcases h : index2Index st col with ⟨st1, r⟩
  rw [h] at hh
  simp only at hh
  cases r with
  | error e =>
    simp only [Delete, h]
    rw [hh]
  | ok pos =>
    simp only [Delete, h]
    rw [hh]

/-- Any typed setter on an immutable set never writes any pre-existing
heap cell. -/
theorem runSet_frame (o : SetOp) (st : St) (col : Nat) (i : Nat)
    (him : st.props.mutableFlag = false) (hi : i < st.heap.length) :
    ((runSet o st col).1).heap.getD i [] = st.heap.getD i [] := by
  cases o with
  | oBool v => exact setFixed_frame st col _ _ i him hi
  | oByte v => exact setFixed_frame st col _ _ i him hi
  | oUByte v => exact setFixed_frame st col _ _ i him hi
  | oShort v => exact setFixed_frame st col _ _ i him hi
  | oUShort v => exact setFixed_frame st col _ _ i him hi
  | oInt v => exact setFixed_frame st col _ _ i him hi
  | oUInt v => exact setFixed_frame st col _ _ i him hi
  | oLong v => exact setFixed_frame st col _ _ i him hi
  | oULong v => exact setFixed_frame st col _ _ i him hi
  | oFloat v => exact setFixed_frame st col _ _ i him hi
  | oDouble v => exact setFixed_frame st col _ _ i him hi
  | oString s => exact setBinary_frame st col _ _ i him hi
  | oJSON s => exact setBinary_frame st col _ _ i him hi
  | oBinary s => exact setBinary_frame st col _ _ i him hi
  | oDateTime s => exact setBinary_frame st col _ _ i him hi
  | oDateTimeString s => exact setBinary_frame st col _ _ i him hi

/-- The dynamic setter on an immutable set never writes any pre-existing
heap cell. -/
theorem SetValue_frame (v : AnyValue) (st : St) (col : Nat) (i : Nat)
    (him : st.props.mutableFlag = false) (hi : i < st.heap.length) :
    ((SetValue st col v).1).heap.getD i [] = st.heap.getD i [] := by
  cases v with
  | vBool v => exact setFixed_frame st col _ _ i him hi
  | vByte v => exact setFixed_frame st col _ _ i him hi
  | vUByte v => exact setFixed_frame st col _ _ i him hi
  | vShort v => exact setFixed_frame st col _ _ i him hi
  | vUShort v => exact setFixed_frame st col _ _ i him hi
  | vInt v => exact setFixed_frame st col _ _ i him hi
  | vUInt v => exact setFixed_frame st col _ _ i him hi
  | vLong v => exact setFixed_frame st col _ _ i him hi
  | vULong v => exact setFixed_frame st col _ _ i him hi
  | vFloat v => exact setFixed_frame st col _ _ i him hi
  | vDouble v => exact setFixed_frame st col _ _ i him hi
  | vString s => exact setBinary_frame st col _ _ i him hi
  | vBinary s => exact setBinary_frame st col _ _ i him hi
  | vTime s => exact setBinary_frame st col _ _ i him hi
  | other => rfl

/-- Any mutating operation on an immutable set never writes any
pre-existing heap cell. -/
theorem runMut_frame (o : MutOp) (st : St) (col : Nat) (i : Nat)
    (him : st.props.mutableFlag = false) (hi : i < st.heap.length) :
    ((runMut o st col).1).heap.getD i [] = st.heap.getD i [] := by
  cases o with
  | set so => exact runSet_frame so st col i him hi
  | setAny v => exact SetValue_frame v st col i him hi
  | del => exact Delete_frame st col i

/-- A read's observable result depends only on the property-set fields and
its own buffer's bytes, not on the rest of the heap: running it over two
heaps that agree on the set's buffer yields the same answer (and
result states that again agree). -/
def ReadStable {α : Type} (f : St → Nat → St × Except Err α) : Prop :=
  ∀ (h1 h2 : List (List Nat)) (q : Props) (col : Nat),
    bytesOf { heap := h1, props := q } = bytesOf { heap := h2, props := q } →
    (f { heap := h1, props := q } col).2 = (f { heap := h2, props := q } col).2 ∧
    (f { heap := h1, props := q } col).1.props = (f { heap := h2, props := q } col).1.props ∧
    bytesOf (f { heap := h1, props := q } col).1 = bytesOf (f { heap := h2, props := q } col).1

/-- `index2Index` is heap-stable. -/
theorem index2Index_stable : ReadStable index2Index := by
  intro h1 h2 q col hb
  by_cases hcol : col ≥ q.schema.length
  · simp only [index2Index]
    rw [if_pos hcol, if_pos hcol]
    exact ⟨rfl, rfl, hb⟩
  · rcases hl : q.lookup with _ | l
    · by_cases hm : q.mutableFlag
      · simp only [index2Index]
        rw [if_neg hcol, if_neg hcol]
        try dsimp only
        rw [hl]
        try dsimp only
        rw [if_pos hm, if_pos hm]
        exact ⟨rfl, rfl, hb⟩
      · simp only [index2Index]
        rw [if_neg hcol, if_neg hcol]
        try dsimp only
        rw [hl]
        try dsimp only
        rw [if_neg hm, if_neg hm, hb]
        exact ⟨rfl, rfl, hb⟩
    · simp only [index2Index]
      rw [if_neg hcol, if_neg hcol]
      try dsimp only
      rw [hl]
      exact ⟨rfl, rfl, hb⟩

/-- `check` depends only on the property-set fields. -/
theorem check_congr (s1 s2 : St) (col : Nat) (T : ColumnType)
    (hp : s1.props = s2.props) : check s1 col T = check s2 col T := by
  unfold check
  rw [hp]

/-- The fixed-width getter body is heap-stable. -/
theorem getFixed_stable (T : ColumnType) (w : Nat) :
    ReadStable (fun st col => getFixed st col T w) := by
  intro h1 h2 q col hb
  dsimp only
  obtain ⟨hr, hpr, hbr⟩ := index2Index_stable h1 h2 q col hb
  rcases e1 : index2Index { heap := h1, props := q } col with ⟨s1, r1⟩
  rcases e2 : index2Index { heap := h2, props := q } col with ⟨s2, r2⟩
  rw [e1, e2] at hr hpr hbr
  simp only at hr hpr hbr
  subst hr
  simp only [getFixed, e1, e2]
  cases r1 with
  | error e => exact ⟨by trivial, hpr, hbr⟩
  | ok pos =>
    dsimp only
    rw [check_congr s1 s2 col T hpr]
    cases hc : check s2 col T with
    | error e => exact ⟨by trivial, hpr, hbr⟩
    | ok u =>
      by_cases hp : pos = 0
      · simp only [if_pos hp]
        exact ⟨by trivial, hpr, hbr⟩
      · simp only [if_neg hp]
        rw [hbr]
        by_cases hw : pos + w ≤ (bytesOf s2).length
        · simp only [if_pos hw]
          exact ⟨by trivial, hpr, hbr⟩
        · simp only [if_neg hw]
          exact ⟨by trivial, hpr, hbr⟩

/-- The variable-width getter body is heap-stable. -/
theorem getBinary_stable (T : ColumnType) :
    ReadStable (fun st col => getBinary st col T) := by
  intro h1 h2 q col hb
  dsimp only
  obtain ⟨hr, hpr, hbr⟩ := index2Index_stable h1 h2 q col hb
  rcases e1 : index2Index { heap := h1, props := q } col with ⟨s1, r1⟩
  rcases e2 : index2Index { heap := h2, props := q } col with ⟨s2, r2⟩
  rw [e1, e2] at hr hpr hbr
  simp only at hr hpr hbr
  subst hr
  simp only [getBinary, e1, e2]
  cases r1 with
  | error e => exact ⟨by trivial, hpr, hbr⟩
  | ok pos =>
    dsimp only
    rw [check_congr s1 s2 col T hpr]
    cases hc : check s2 col T with
    | error e => exact ⟨by trivial, hpr, hbr⟩
    | ok u =>
      by_cases hp : pos = 0
      · simp only [if_pos hp]
        exact ⟨by trivial, hpr, hbr⟩
      · simp only [if_neg hp]
        rw [hbr]
        by_cases h4 : pos + 4 ≤ (bytesOf s2).length
        · simp only [if_pos h4]
          by_cases hn : leNat (bytesOf s2) pos 4 ≤ maxInt - 4
          · simp only [if_pos hn]
            by_cases hin : pos + 4 + leNat (bytesOf s2) pos 4 ≤ (bytesOf s2).length
            · simp only [if_pos hin]
              exact ⟨by trivial, hpr, hbr⟩
            · simp only [if_neg hin]
              exact ⟨by trivial, hpr, hbr⟩
          · simp only [if_neg hn]
            exact ⟨by trivial, hpr, hbr⟩
        · simp only [if_neg h4]
          exact ⟨by trivial, hpr, hbr⟩

/-- `GetDateTime` is heap-stable. -/
theorem GetDateTime_stable : ReadStable GetDateTime := by
  intro h1 h2 q col hb
  obtain ⟨hr, hpr, hbr⟩ := getBinary_stable .dateTime h1 h2 q col hb
  dsimp only at hr hpr hbr
  rcases e1 : getBinary { heap := h1, props := q } col .dateTime with ⟨s1, r1⟩
  rcases e2 : getBinary { heap := h2, props := q } col .dateTime with ⟨s2, r2⟩
  rw [e1, e2] at hr hpr hbr
  simp only at hr hpr hbr
  subst hr
  simp only [GetDateTime, e1, e2]
  cases r1 with
  | error e => exact ⟨by trivial, hpr, hbr⟩
  | ok bs =>
    by_cases he : bs.isEmpty
    · simp only [if_pos he]
      exact ⟨by trivial, hpr, hbr⟩
    · simp only [if_neg he]
      exact ⟨by trivial, hpr, hbr⟩

/-- `mapOk` preserves heap-stability. -/
theorem mapOk_stable {α β : Type} (g : α → β) (f : St → Nat → St × Except Err α)
    (hf : ReadStable f) : ReadStable (fun st col => mapOk (f st col) g) := by
  intro h1 h2 q col hb
  dsimp only
  obtain ⟨hr, hpr, hbr⟩ := hf h1 h2 q col hb
  rcases e1 : f { heap := h1, props := q } col with ⟨s1, r1⟩
  rcases e2 : f { heap := h2, props := q } col with ⟨s2, r2⟩
  rw [e1, e2] at hr hpr hbr
  simp only at hr hpr hbr
  subst hr
  cases r1 with
  | error e => exact ⟨by simp [mapOk], hpr, hbr⟩
  | ok v => exact ⟨by simp [mapOk], hpr, hbr⟩

/-- `mapOkOrCrash` preserves heap-stability. -/
theorem mapOkOrCrash_stable (g : List Nat → Value) (f : St → Nat → St × Except Err (List Nat))
    (hf : ReadStable f) : ReadStable (fun st col => mapOkOrCrash (f st col) g) := by
  intro h1 h2 q col hb
  dsimp only
  obtain ⟨hr, hpr, hbr⟩ := hf h1 h2 q col hb
  rcases e1 : f { heap := h1, props := q } col with ⟨s1, r1⟩
  rcases e2 : f { heap := h2, props := q } col with ⟨s2, r2⟩
  rw [e1, e2] at hr hpr hbr
  simp only at hr hpr hbr
  subst hr
  cases r1 with
  | error e => exact ⟨by simp [mapOkOrCrash], hpr, hbr⟩
  | ok v => exact ⟨by simp [mapOkOrCrash], hpr, hbr⟩

/-- The dynamic getter is heap-stable. -/
theorem GetValue_stable : ReadStable GetValue := by
  intro h1 h2 q col hb
  have harm : ∀ h : List (List Nat),
      GetValue { heap := h, props := q } col =
        match columnTypeOf q.schema col with
        | .bool => mapOk (GetBool { heap := h, props := q } col) Value.b
        | .byte => mapOk (GetByte { heap := h, props := q } col) Value.n
        | .ubyte => mapOk (GetUByte { heap := h, props := q } col) Value.n
        | .short => mapOk (GetShort { heap := h, props := q } col) Value.n
        | .ushort => mapOk (GetUShort { heap := h, props := q } col) Value.n
        | .int => mapOk (GetInt { heap := h, props := q } col) Value.n
        | .uint => mapOk (GetUInt { heap := h, props := q } col) Value.n
        | .long => mapOk (GetLong { heap := h, props := q } col) Value.n
        | .ulong => mapOk (GetULong { heap := h, props := q } col) Value.n
        | .float => mapOk (GetFloat { heap := h, props := q } col) Value.n
        | .double => mapOk (GetDouble { heap := h, props := q } col) Value.n
        | .string => mapOk (GetString { heap := h, props := q } col) Value.s
        | .json => mapOk (GetJSON { heap := h, props := q } col) Value.s
        | .binary => mapOk (GetBinary { heap := h, props := q } col) Value.bin
        | .dateTime => mapOkOrCrash (GetDateTime { heap := h, props := q } col) Value.dt
        | .unknown => ({ heap := h, props := q }, .error .invalidColumnType) :=
    fun h => rfl
  rw [harm h1, harm h2]
  cases columnTypeOf q.schema col
  all_goals dsimp only
  case bool =>
    exact mapOk_stable Value.b GetBool (mapOk_stable _ _ (getFixed_stable .bool 1)) h1 h2 q col hb
  case byte => exact mapOk_stable Value.n GetByte (getFixed_stable .byte 1) h1 h2 q col hb
  case ubyte => exact mapOk_stable Value.n GetUByte (getFixed_stable .ubyte 1) h1 h2 q col hb
  case short => exact mapOk_stable Value.n GetShort (getFixed_stable .short 2) h1 h2 q col hb
  case ushort => exact mapOk_stable Value.n GetUShort (getFixed_stable .ushort 2) h1 h2 q col hb
  case int => exact mapOk_stable Value.n GetInt (getFixed_stable .int 4) h1 h2 q col hb
  case uint => exact mapOk_stable Value.n GetUInt (getFixed_stable .uint 4) h1 h2 q col hb
  case long => exact mapOk_stable Value.n GetLong (getFixed_stable .long 8) h1 h2 q col hb
  case ulong => exact mapOk_stable Value.n GetULong (getFixed_stable .ulong 8) h1 h2 q col hb
  case float => exact mapOk_stable Value.n GetFloat (getFixed_stable .float 4) h1 h2 q col hb
  case double => exact mapOk_stable Value.n GetDouble (getFixed_stable .double 8) h1 h2 q col hb
  case string => exact mapOk_stable Value.s GetString (getBinary_stable .string) h1 h2 q col hb
  case json => exact mapOk_stable Value.s GetJSON (getBinary_stable .json) h1 h2 q col hb
  case binary => exact mapOk_stable Value.bin GetBinary (getBinary_stable .binary) h1 h2 q col hb
  case dateTime =>
    exact mapOkOrCrash_stable Value.dt GetDateTime GetDateTime_stable h1 h2 q col hb
  case unknown => exact ⟨rfl, rfl, hb⟩

/-- Every read operation is heap-stable. -/
theorem runRead_stable (ro : ReadOp) : ReadStable (fun st col => runRead ro st col) := by
  cases ro with
  | get g =>
    cases g with
    | gBool => exact mapOk_stable Value.b GetBool (mapOk_stable _ _ (getFixed_stable .bool 1))
    | gByte => exact mapOk_stable Value.n GetByte (getFixed_stable .byte 1)
    | gUByte => exact mapOk_stable Value.n GetUByte (getFixed_stable .ubyte 1)
    | gShort => exact mapOk_stable Value.n GetShort (getFixed_stable .short 2)
    | gUShort => exact mapOk_stable Value.n GetUShort (getFixed_stable .ushort 2)
    | gInt => exact mapOk_stable Value.n GetInt (getFixed_stable .int 4)
    | gUInt => exact mapOk_stable Value.n GetUInt (getFixed_stable .uint 4)
    | gLong => exact mapOk_stable Value.n GetLong (getFixed_stable .long 8)
    | gULong => exact mapOk_stable Value.n GetULong (getFixed_stable .ulong 8)
    | gFloat => exact mapOk_stable Value.n GetFloat (getFixed_stable .float 4)
    | gDouble => exact mapOk_stable Value.n GetDouble (getFixed_stable .double 8)
    | gString => exact mapOk_stable Value.s GetString (getBinary_stable .string)
    | gJSON => exact mapOk_stable Value.s GetJSON (getBinary_stable .json)
    | gBinary => exact mapOk_stable Value.bin GetBinary (getBinary_stable .binary)
    | gDateTime => exact mapOk_stable Value.dt GetDateTime GetDateTime_stable
    | gDateTimeString => exact mapOk_stable Value.s GetDateTimeString (getBinary_stable .dateTime)
  | getAny => exact GetValue_stable
  | has =>
    intro h1 h2 q col hb
    dsimp only
    obtain ⟨hr, hpr, hbr⟩ := index2Index_stable h1 h2 q col hb
    rcases e1 : index2Index { heap := h1, props := q } col with ⟨s1, r1⟩
    rcases e2 : index2Index { heap := h2, props := q } col with ⟨s2, r2⟩
    rw [e1, e2] at hr hpr hbr
    simp only at hr hpr hbr
    subst hr
    have u1 : runRead .has { heap := h1, props := q } col = (s1, .ok (.b false)) := by
      unfold runRead Has
      rw [e1]
      cases r1 <;> rfl
    have u2 : runRead .has { heap := h2, props := q } col = (s2, .ok (.b false)) := by
      unfold runRead Has
      rw [e2]
      cases r1 <;> rfl
    rw [u1, u2]
    exact ⟨by trivial, hpr, hbr⟩

/-- C5: copy-on-write isolation.  Construct an immutable property set over
a shared caller-supplied buffer (heap cell `r`).  Performing any typed set,
dynamic set or delete on it never changes the shared buffer — the first
write duplicates it (`mutate`) before mutating — so every observable read
(typed getters, dynamic getter, `Has`) of any other property set built
over the same buffer returns exactly what it returned before. -/
theorem c5_cow_isolation (h : List (List Nat)) (schema : List ColumnType)
    (r : Nat) (hr : r < h.length) (o : MutOp) (col : Nat) :
    ((runMut o { heap := h, props := propsFromFlat schema r } col).1).heap.getD r [] =
      h.getD r [] ∧
    ∀ (q : Props), q.ref = r → ∀ (ro : ReadOp) (c : Nat),
      (runRead ro
        { heap := ((runMut o { heap := h, props := propsFromFlat schema r } col).1).heap,
          props := q } c).2 =
      (runRead ro { heap := h, props := q } c).2 := by
  have hframe :
      ((runMut o { heap := h, props := propsFromFlat schema r } col).1).heap.getD r [] =
        h.getD r [] :=
    runMut_frame o { heap := h, props := propsFromFlat schema r } col r rfl hr
  refine ⟨hframe, fun q hqr ro c => ?_⟩
  have hb : bytesOf
      { heap := ((runMut o { heap := h, props := propsFromFlat schema r } col).1).heap,
        props := q } = bytesOf { heap := h, props := q } := by
    unfold bytesOf
    dsimp only
    rw [hqr]
    exact hframe
  exact (runRead_stable ro _ h q c hb).1

/-- Witness for `c5_cow_isolation`: a one-byte shared buffer, a `Bool`
schema, and a `SetBool` write. -/
theorem c5_witness :
    ((0 : Nat) < ([[7]] : List (List Nat)).length) ∧
    (((runMut (.set (.oBool true)) { heap := [[7]], props := propsFromFlat [.bool] 0 } 0).1).heap.getD
        0 [] = ([[7]] : List (List Nat)).getD 0 [] ∧
     ∀ (q : Props), q.ref = 0 → ∀ (ro : ReadOp) (c : Nat),
       (runRead ro
         { heap := ((runMut (.set (.oBool true))
             { heap := [[7]], props := propsFromFlat [.bool] 0 } 0).1).heap,
           props := q } c).2 =
       (runRead ro { heap := [[7]], props := q } c).2) :=
  ⟨by decide, c5_cow_isolation [[7]] [.bool] 0 (by decide) (.set (.oBool true)) 0⟩

end FGBProps
